import Mathlib

/-!
Verification of the SeriousSaveEditor codecs: the signature-stream container
(src/signature_stream.rs), its gzip envelope, and the CTSEMETA typed-object
codec (src/ctsemeta.rs), shallowly embedded over byte lists.  Cryptographic
primitives (SHA-1/Tiger/SHA-256 digests and RSA-PSS sign/verify) are external
collaborators; we model a signature as an abstract function of the exact byte
transcript the code feeds to the hasher, and verification as an abstract
oracle, so that every structural byte of the two formats is represented
exactly while the crypto stays opaque.
-/

set_option maxRecDepth 10000
set_option linter.dupNamespace false

/-- Byte-order selector, mirroring binrw's `Endian`. -/
inductive Endian where
  | big
  | little
deriving DecidableEq

/-- A byte of the wire format. -/
abbrev Byte := Fin 256

/-- Truncate a natural number to a byte, as Rust's `as u8` / byte extraction does. -/
def byte (n : Nat) : Byte := ⟨n % 256, Nat.mod_lt _ (by decide)⟩

/-- The four bytes of a `u32` value in the given byte order
(`to_le_bytes` / `to_be_bytes`); values are reduced mod 2^32 as the Rust
`u32` type does at every boundary. -/
def word32 (e : Endian) (v : Nat) : List Byte :=
  let u := v % 4294967296
  match e with
  | .little => [byte u, byte (u / 256), byte (u / 65536), byte (u / 16777216)]
  | .big => [byte (u / 16777216), byte (u / 65536), byte (u / 256), byte u]

/-- The two bytes of a little-endian `u16` value. -/
def word16le (v : Nat) : List Byte :=
  let u := v % 65536
  [byte u, byte (u / 256)]

/-- The eight bytes of a `u64` value in the given byte order. -/
def word64 (e : Endian) (v : Nat) : List Byte :=
  let u := v % 18446744073709551616
  match e with
  | .little =>
    [byte u, byte (u / 256), byte (u / 65536), byte (u / 16777216),
     byte (u / 4294967296), byte (u / 1099511627776),
     byte (u / 281474976710656), byte (u / 72057594037927936)]
  | .big =>
    [byte (u / 72057594037927936), byte (u / 281474976710656),
     byte (u / 1099511627776), byte (u / 4294967296),
     byte (u / 16777216), byte (u / 65536), byte (u / 256), byte u]

/-- Decode four bytes as a `u32` in the given byte order. -/
def wordVal (e : Endian) (a b c d : Byte) : Nat :=
  match e with
  | .little => a.val + 256 * b.val + 65536 * c.val + 16777216 * d.val
  | .big => d.val + 256 * c.val + 65536 * b.val + 16777216 * a.val

/-- Decode eight bytes as a `u64` in the given byte order. -/
def word64Val (e : Endian) (a b c d a2 b2 c2 d2 : Byte) : Nat :=
  match e with
  | .little =>
    a.val + 256 * b.val + 65536 * c.val + 16777216 * d.val
    + 4294967296 * a2.val + 1099511627776 * b2.val
    + 281474976710656 * c2.val + 72057594037927936 * d2.val
  | .big =>
    d2.val + 256 * c2.val + 65536 * b2.val + 16777216 * a2.val
    + 4294967296 * d.val + 1099511627776 * c.val
    + 281474976710656 * b.val + 72057594037927936 * a.val

/-- Continuation byte test of the UTF-8 validation performed by
`String::from_utf8` in `parse_pascal_string` (helpers.rs). -/
def isUtf8Cont (b : Byte) : Bool := decide (128 ≤ b.val ∧ b.val ≤ 191)

/-- UTF-8 well-formedness of a byte sequence, as checked by Rust's
`String::from_utf8` (helpers.rs, `parse_pascal_string`). -/
def utf8Valid : List Byte → Bool
  | [] => true
  | b :: bs =>
    if b.val ≤ 127 then utf8Valid bs
    else if b.val < 194 then false
    else if b.val ≤ 223 then
      match bs with
      | c1 :: bs2 => isUtf8Cont c1 && utf8Valid bs2
      | [] => false
    else if b.val ≤ 239 then
      match bs with
      | c1 :: c2 :: bs2 =>
        (if b.val = 224 then decide (160 ≤ c1.val ∧ c1.val ≤ 191)
         else if b.val = 237 then decide (128 ≤ c1.val ∧ c1.val ≤ 159)
         else isUtf8Cont c1) && isUtf8Cont c2 && utf8Valid bs2
      | _ => false
    else if b.val ≤ 244 then
      match bs with
      | c1 :: c2 :: c3 :: bs2 =>
        (if b.val = 240 then decide (144 ≤ c1.val ∧ c1.val ≤ 191)
         else if b.val = 244 then decide (128 ≤ c1.val ∧ c1.val ≤ 143)
         else isUtf8Cont c1) && isUtf8Cont c2 && isUtf8Cont c3 && utf8Valid bs2
      | _ => false
    else false

/-- Errors surfaced by the binrw-based readers: these are the fatal error
kinds of the two codecs (I/O end-of-stream, magic mismatch, failed UTF-8
validation, failed `assert`, unmatched enum magic, and the custom
"Tried to read external type" error of `read_type`). -/
inductive PErr where
  | eof
  | badMagic
  | badUtf8
  | badAssert
  | unknownTag
  | externalType
deriving DecidableEq

/-- Result of running a reader: success with a value, a fatal parse error, or
divergence (the reader never returns; used to model unbounded loops via fuel
exhaustion at every fuel). -/
inductive PResult (α : Type) where
  | ok (a : α)
  | err (e : PErr)
  | div
deriving DecidableEq

/-- A reader over a byte stream: consumes a prefix and returns the value plus
the unread remainder. -/
abbrev Parser (α : Type) := List Byte → PResult (α × List Byte)

/-- Reader returning a value without consuming input. -/
def ppure {α : Type} (a : α) : Parser α := fun bs => .ok (a, bs)

/-- Sequencing of readers; fatal errors and divergence propagate. -/
def pbind {α β : Type} (p : Parser α) (f : α → Parser β) : Parser β := fun bs =>
  match p bs with
  | .ok (a, rest) => f a rest
  | .err x => .err x
  | .div => .div

/-- Reader that fails with the given error. -/
def pfail {α : Type} (x : PErr) : Parser α := fun _ => .err x

/-- Read and check an exact byte sequence (a binrw `magic`). -/
def readExact (pat : List Byte) : Parser Unit := fun bs =>
  if bs.take pat.length = pat then .ok ((), bs.drop pat.length) else .err .badMagic

/-- Read `n` raw bytes (`Vec::<u8>::read_options` with `count: n`). -/
def readByteList (n : Nat) : Parser (List Byte) := fun bs =>
  if n ≤ bs.length then .ok (bs.take n, bs.drop n) else .err .eof

/-- Read one byte (`u8::read_options`). -/
def readByte : Parser Nat := fun bs =>
  match bs with
  | b :: rest => .ok (b.val, rest)
  | [] => .err .eof

/-- Read a `u32` in the given byte order. -/
def readU32 (e : Endian) : Parser Nat := fun bs =>
  match bs with
  | a :: b :: c :: d :: rest => .ok (wordVal e a b c d, rest)
  | _ => .err .eof

/-- Read a `u64` in the given byte order. -/
def readU64 (e : Endian) : Parser Nat := fun bs =>
  match bs with
  | a :: b :: c :: d :: a2 :: b2 :: c2 :: d2 :: rest =>
    .ok (word64Val e a b c d a2 b2 c2 d2, rest)
  | _ => .err .eof

/-- `parse_pascal_string` (helpers.rs): u32 count, then that many bytes,
validated as UTF-8.  The string is kept as its byte sequence. -/
def parse_pascal_string (e : Endian) : Parser (List Byte) :=
  pbind (readU32 e) fun n =>
  pbind (readByteList n) fun s =>
  fun bs => if utf8Valid s then .ok (s, bs) else .err .badUtf8

/-- `write_pascal_string` (helpers.rs): u32 length prefix then the bytes. -/
def write_pascal_string (e : Endian) (s : List Byte) : List Byte :=
  word32 e s.length ++ s

/-- Read `n` consecutive values with the same reader
(`Vec::<T>::read_options` with `count: n`, or `repeat_with(..).take(n)`). -/
def readN {α : Type} (p : Parser α) : Nat → Parser (List α)
  | 0 => ppure []
  | n + 1 =>
    pbind p fun a =>
    pbind (readN p n) fun l =>
    ppure (a :: l)

/-- Read one value per element of a list, with a reader depending on the
element (the member loop of `read_type`). -/
def readSeq {α β : Type} (f : α → Parser β) : List α → Parser (List β)
  | [] => ppure []
  | a :: l =>
    pbind (f a) fun b =>
    pbind (readSeq f l) fun bl =>
    ppure (b :: bl)

/-- `parse_pascal_vec` (helpers.rs): u32 count then that many elements. -/
def parse_pascal_vec {α : Type} (e : Endian) (p : Parser α) : Parser (List α) :=
  pbind (readU32 e) fun n => readN p n

/-- Concatenated rendering of a list of elements. -/
def writeSeq {α : Type} (w : α → List Byte) : List α → List Byte
  | [] => []
  | a :: l => w a ++ writeSeq w l

/-- `write_pascal_vec` (helpers.rs): u32 element count then the elements. -/
def write_pascal_vec {α : Type} (e : Endian) (w : α → List Byte) (l : List α) : List Byte :=
  word32 e l.length ++ writeSeq w l

/-! ### Basic lemmas about the byte codecs -/

theorem byte_val (n : Nat) : (byte n).val = n % 256 := rfl

theorem word32_length (e : Endian) (v : Nat) : (word32 e v).length = 4 := by
  cases e <;> rfl

theorem readU32_word32 (e : Endian) (v : Nat) (rest : List Byte) :
    readU32 e (word32 e v ++ rest) = .ok (v % 4294967296, rest) := by
  cases e <;>
    simp only [word32, readU32, List.cons_append, List.nil_append, wordVal, byte,
      PResult.ok.injEq, Prod.mk.injEq, and_true] <;>
    omega

theorem word32_wordVal (e : Endian) (a b c d : Byte) :
    word32 e (wordVal e a b c d) = [a, b, c, d] := by
  have ha := a.isLt
  have hb := b.isLt
  have hc := c.isLt
  have hd := d.isLt
  cases e <;>
  · simp only [word32, wordVal, List.cons.injEq, and_true]
    refine ⟨Fin.ext ?_, Fin.ext ?_, Fin.ext ?_, Fin.ext ?_⟩ <;>
      simp only [byte] <;> omega

theorem readU32_inv {e : Endian} {bs rest : List Byte} {v : Nat}
    (h : readU32 e bs = .ok (v, rest)) :
    bs = word32 e v ++ rest ∧ v < 4294967296 := by
  match bs, h with
  | a :: b :: c :: d :: rest', h =>
    simp only [readU32, PResult.ok.injEq, Prod.mk.injEq] at h
    obtain ⟨hv, hr⟩ := h
    subst hv; subst hr
    refine ⟨?_, ?_⟩
    · rw [word32_wordVal]; rfl
    · have ha := a.isLt
      have hb := b.isLt
      have hc := c.isLt
      have hd := d.isLt
      cases e <;> simp only [wordVal] <;> omega

theorem readU64_word64 (e : Endian) (v : Nat) (rest : List Byte) :
    readU64 e (word64 e v ++ rest) = .ok (v % 18446744073709551616, rest) := by
  cases e <;>
    simp only [word64, readU64, List.cons_append, List.nil_append, word64Val, byte,
      PResult.ok.injEq, Prod.mk.injEq, and_true] <;>
    omega

theorem word64_word64Val (e : Endian) (a b c d a2 b2 c2 d2 : Byte) :
    word64 e (word64Val e a b c d a2 b2 c2 d2) = [a, b, c, d, a2, b2, c2, d2] := by
  have ha := a.isLt
  have hb := b.isLt
  have hc := c.isLt
  have hd := d.isLt
  have ha2 := a2.isLt
  have hb2 := b2.isLt
  have hc2 := c2.isLt
  have hd2 := d2.isLt
  cases e <;>
  · simp only [word64, word64Val, List.cons.injEq, and_true]
    refine ⟨Fin.ext ?_, Fin.ext ?_, Fin.ext ?_, Fin.ext ?_, Fin.ext ?_, Fin.ext ?_,
      Fin.ext ?_, Fin.ext ?_⟩ <;>
      simp only [byte] <;> omega

theorem readU64_inv {e : Endian} {bs rest : List Byte} {v : Nat}
    (h : readU64 e bs = .ok (v, rest)) :
    bs = word64 e v ++ rest ∧ v < 18446744073709551616 := by
  match bs, h with
  | a :: b :: c :: d :: a2 :: b2 :: c2 :: d2 :: rest', h =>
    simp only [readU64, PResult.ok.injEq, Prod.mk.injEq] at h
    obtain ⟨hv, hr⟩ := h
    subst hv; subst hr
    refine ⟨?_, ?_⟩
    · rw [word64_word64Val]; rfl
    · have ha := a.isLt
      have hb := b.isLt
      have hc := c.isLt
      have hd := d.isLt
      have ha2 := a2.isLt
      have hb2 := b2.isLt
      have hc2 := c2.isLt
      have hd2 := d2.isLt
      cases e <;> simp only [word64Val] <;> omega

theorem readByte_inv {bs rest : List Byte} {v : Nat}
    (h : readByte bs = .ok (v, rest)) : bs = byte v :: rest ∧ v < 256 := by
  match bs, h with
  | b :: rest', h =>
    simp only [readByte, PResult.ok.injEq, Prod.mk.injEq] at h
    obtain ⟨hv, hr⟩ := h
    subst hv; subst hr
    have hlt := b.isLt
    refine ⟨?_, hlt⟩
    have : byte b.val = b := Fin.ext (by simp only [byte]; omega)
    rw [this]

theorem readByte_byte (v : Nat) (rest : List Byte) :
    readByte (byte v :: rest) = .ok (v % 256, rest) := rfl

theorem readExact_append (pat rest : List Byte) :
    readExact pat (pat ++ rest) = .ok ((), rest) := by
  simp [readExact]

theorem readExact_inv {pat bs rest : List Byte} {u : Unit}
    (h : readExact pat bs = .ok (u, rest)) : bs = pat ++ rest := by
  simp only [readExact] at h
  split at h
  · rename_i heq
    simp only [PResult.ok.injEq, Prod.mk.injEq] at h
    obtain ⟨_, hr⟩ := h
    subst hr
    conv_lhs => rw [← List.take_append_drop pat.length bs]
    rw [heq]
  · exact absurd h (by simp)

theorem readByteList_append {l : List Byte} (rest : List Byte) :
    readByteList l.length (l ++ rest) = .ok (l, rest) := by
  simp [readByteList, List.take_left, List.drop_left]

theorem readByteList_inv {n : Nat} {bs l rest : List Byte}
    (h : readByteList n bs = .ok (l, rest)) :
    bs = l ++ rest ∧ l.length = n := by
  simp only [readByteList] at h
  split at h
  · rename_i hle
    simp only [PResult.ok.injEq, Prod.mk.injEq] at h
    obtain ⟨hl, hr⟩ := h
    subst hl; subst hr
    exact ⟨(List.take_append_drop n bs).symm, List.length_take_of_le hle⟩
  · exact absurd h (by simp)

theorem pbind_ok {α β : Type} {p : Parser α} {f : α → Parser β} {bs : List Byte}
    {r : β × List Byte} :
    pbind p f bs = .ok r ↔ ∃ a rest, p bs = .ok (a, rest) ∧ f a rest = .ok r := by
  simp only [pbind]
  cases h : p bs with
  | ok ar =>
    obtain ⟨a, rest⟩ := ar
    constructor
    · intro h2
      exact ⟨a, rest, rfl, h2⟩
    · rintro ⟨a2, rest2, heq, h2⟩
      simp only [PResult.ok.injEq, Prod.mk.injEq] at heq
      obtain ⟨h3, h4⟩ := heq
      subst h3; subst h4
      exact h2
  | err x => simp
  | div => simp

theorem pbind_apply {α β : Type} {p : Parser α} {f : α → Parser β} {bs : List Byte}
    {a : α} {rest : List Byte} (h : p bs = .ok (a, rest)) :
    pbind p f bs = f a rest := by
  simp [pbind, h]

theorem readN_inv {α : Type} {p : Parser α} {w : α → List Byte}
    (hinv : ∀ bs a rest, p bs = .ok (a, rest) → bs = w a ++ rest) :
    ∀ n bs l rest, readN p n bs = .ok (l, rest) →
      bs = writeSeq w l ++ rest ∧ l.length = n := by
  intro n
  induction n with
  | zero =>
    intro bs l rest h
    simp only [readN, ppure, PResult.ok.injEq, Prod.mk.injEq] at h
    obtain ⟨hl, hr⟩ := h
    subst hl; subst hr
    simp [writeSeq]
  | succ n ih =>
    intro bs l rest h
    simp only [readN, pbind_ok, ppure, PResult.ok.injEq, Prod.mk.injEq] at h
    obtain ⟨a, rest1, ha, l', rest2, hl', hlr⟩ := h
    obtain ⟨hl, hr⟩ := hlr
    subst hl; subst hr
    obtain ⟨hbs1, hlen⟩ := ih rest1 l' rest2 hl'
    refine ⟨?_, by simp [hlen]⟩
    rw [hinv bs a rest1 ha, hbs1, writeSeq, List.append_assoc]

theorem readSeq_inv {α β : Type} {f : α → Parser β} {w : β → List Byte}
    (hinv : ∀ a bs b rest, f a bs = .ok (b, rest) → bs = w b ++ rest) :
    ∀ al bs bl rest, readSeq f al bs = .ok (bl, rest) →
      bs = writeSeq w bl ++ rest := by
  intro al
  induction al with
  | nil =>
    intro bs bl rest h
    simp only [readSeq, ppure, PResult.ok.injEq, Prod.mk.injEq] at h
    obtain ⟨hl, hr⟩ := h
    subst hl; subst hr
    simp [writeSeq]
  | cons a al ih =>
    intro bs bl rest h
    simp only [readSeq, pbind_ok, ppure, PResult.ok.injEq, Prod.mk.injEq] at h
    obtain ⟨b, rest1, hb, bl', rest2, hbl', hlr⟩ := h
    obtain ⟨hl, hr⟩ := hlr
    subst hl; subst hr
    rw [hinv a bs b rest1 hb, ih rest1 bl' rest2 hbl', writeSeq, List.append_assoc]

theorem parse_pascal_string_append {e : Endian} {s : List Byte} (rest : List Byte)
    (hlen : s.length < 4294967296) (hu : utf8Valid s = true) :
    parse_pascal_string e (write_pascal_string e s ++ rest) = .ok (s, rest) := by
  simp only [parse_pascal_string, write_pascal_string, List.append_assoc]
  rw [pbind_apply (readU32_word32 e s.length (s ++ rest))]
  rw [Nat.mod_eq_of_lt hlen]
  rw [pbind_apply (readByteList_append rest)]
  simp [hu]

theorem parse_pascal_string_inv {e : Endian} {bs s rest : List Byte}
    (h : parse_pascal_string e bs = .ok (s, rest)) :
    bs = write_pascal_string e s ++ rest ∧ utf8Valid s = true := by
  simp only [parse_pascal_string, pbind_ok] at h
  obtain ⟨n, rest1, hn, s', rest2, hs', hrest⟩ := h
  split at hrest
  · rename_i hu
    simp only [PResult.ok.injEq, Prod.mk.injEq] at hrest
    obtain ⟨hseq, hreq⟩ := hrest
    subst hseq; subst hreq
    obtain ⟨hbs, hn32⟩ := readU32_inv hn
    obtain ⟨hbs2, hlen⟩ := readByteList_inv hs'
    subst hlen
    refine ⟨?_, hu⟩
    rw [hbs, hbs2, write_pascal_string, List.append_assoc]
  · exact absurd hrest (by simp)

/-! ### Signature stream (src/signature_stream.rs) -/

/-- The bytes of the magic `b"SIGSTRM12GIS"`. -/
def sigStreamMagic : List Byte :=
  [0x53, 0x49, 0x47, 0x53, 0x54, 0x52, 0x4D, 0x31, 0x32, 0x47, 0x49, 0x53]

/-- `SIGNATURE_STREAM_BLOCK_SIZE = 0x10000`. -/
def SIGNATURE_STREAM_BLOCK_SIZE : Nat := 0x10000

/-- `SIGNATURE_STREAM_HASH_METHOD = HashMethod::Sha1`, whose id is 4. -/
def SIGNATURE_STREAM_HASH_METHOD_ID : Nat := 4

/-- The outcome of the abstract signing primitive for one private key:
`sign t` stands for `pss.sign` applied to the digest of transcript `t`.
The length of an RSA-PSS signature is a constant of the key (its modulus
size), which is why well-formedness hypotheses relate all its outputs to
`(sign []).length`, the length obtained by the dry-run probe
`HashMethod::signature_size` over the empty transcript. -/
structure SigningOutcome where
  sign : List Byte → List Byte

/-- `SignOptions` of the source plus the resolution of the key-ring lookup:
`signingOutcome = none` models "no private key with this name in the key
ring" (or a signing failure), where the writer falls back to
`signature_size = 0`. -/
structure SignOpts where
  signKeyName : List Byte
  memoryStreamName : Option (List Byte)
  userid : Option (List Byte)
  signingOutcome : Option SigningOutcome

/-- The `(has_memory_stream_name, has_userid)` pair computed by the writer:
`sign_options.map(..).unwrap_or_default()`. -/
def msnFlag (so : Option SignOpts) : Nat :=
  match so with
  | some o => if o.memoryStreamName.isSome then 1 else 0
  | none => 0

/-- See `msnFlag`; the `has_userid` component. -/
def uidFlag (so : Option SignOpts) : Nat :=
  match so with
  | some o => if o.userid.isSome then 1 else 0
  | none => 0

/-- The signing configuration actually used by the writer: signing happens
only when `version >= 3`, sign options were supplied, and the private key
resolved. -/
def signingOf (version : Nat) (so : Option SignOpts) : Option (SignOpts × SigningOutcome) :=
  if 3 ≤ version then
    match so with
    | some o =>
      match o.signingOutcome with
      | some s => some (o, s)
      | none => none
    | none => none
  else none

/-- Length of the header signature as probed by
`HashMethod::signature_size` (a dry-run sign over the empty digest). -/
def probeLen (s : SigningOutcome) : Nat := (s.sign []).length

/-- The exact byte transcript hashed for the header signature on the WRITE
side (write_signature_stream_data, the `hasher.update` calls before
`pss.sign`): version, block size, hash method, hash size, salt; if v≥2 the
`has_memory_stream_name` flag and, ONLY IF v≥4, the memory-stream-name
bytes; if v≥3 the `has_userid` flag and the user-id bytes when present;
if v≥5 the (empty) signature-related string; then the probed signature
size and the sign-key-name bytes. -/
def writeHeaderHashInput (e : Endian) (version salt : Nat)
    (msn uid : Option (List Byte)) (sigSize : Nat) (signKeyName : List Byte) : List Byte :=
  word32 e version ++ word32 e SIGNATURE_STREAM_BLOCK_SIZE
    ++ word32 e SIGNATURE_STREAM_HASH_METHOD_ID ++ word32 e 0 ++ word32 e salt
  ++ (if 2 ≤ version then
        word32 e (if msn.isSome then 1 else 0)
          ++ (if 4 ≤ version then msn.getD [] else [])
      else [])
  ++ (if 3 ≤ version then
        word32 e (if uid.isSome then 1 else 0) ++ uid.getD []
      else [])
  ++ word32 e sigSize ++ signKeyName

/-- The exact byte transcript hashed for a block signature (identical on the
read and write sides): `salt XOR (block_index + 0xB1B)` as a u32 in the
declared byte order, then the memory-stream-name bytes when available, the
user-id bytes when available, then the block payload. -/
def blockHashInput (e : Endian) (salt i : Nat)
    (msnB uidB : Option (List Byte)) (blockData : List Byte) : List Byte :=
  word32 e (salt ^^^ ((i + 0xB1B) % 4294967296))
    ++ msnB.getD [] ++ uidB.getD [] ++ blockData

/-- The bytes of the header signature emitted by the writer: the abstract
signer applied to the write-side header transcript. -/
def headerSigOf (e : Endian) (version salt : Nat) (o : SignOpts) (s : SigningOutcome) : List Byte :=
  s.sign (writeHeaderHashInput e version salt o.memoryStreamName o.userid
    (probeLen s) o.signKeyName)

/-- The per-block signer used by the writer's block loop, when signing is
active. -/
def blockSigFn (e : Endian) (salt version : Nat) (so : Option SignOpts) :
    Option (Nat → List Byte → List Byte) :=
  match signingOf version so with
  | some (o, s) =>
    some (fun i chunk =>
      s.sign (blockHashInput e salt i o.memoryStreamName o.userid chunk))
  | none => none

/-- The header of `write_signature_stream_data`: the magic, the five fixed
u32 fields, the version-gated flags, the empty pascal
`signature_related_string` for v≥5, and the signature block (signature
size, then — only when signing succeeded — sign-key name and signature). -/
def writeSigHeader (e : Endian) (so : Option SignOpts) (version salt : Nat) : List Byte :=
  sigStreamMagic
  ++ word32 e version ++ word32 e SIGNATURE_STREAM_BLOCK_SIZE
  ++ word32 e SIGNATURE_STREAM_HASH_METHOD_ID ++ word32 e 0 ++ word32 e salt
  ++ (if 2 ≤ version then word32 e (msnFlag so) else [])
  ++ (if 3 ≤ version then word32 e (uidFlag so) else [])
  ++ (if 5 ≤ version then word32 e 0 else [])
  ++ (match signingOf version so with
      | some (o, s) =>
        word32 e (headerSigOf e version salt o s).length
          ++ write_pascal_string e o.signKeyName ++ headerSigOf e version salt o s
      | none => word32 e 0)

/-- The signature bytes the writer appends after one block: nothing when
signing is inactive, the abstract per-block signature otherwise. -/
def sigPart (sigf : Option (Nat → List Byte → List Byte)) (i : Nat) (chunk : List Byte) :
    List Byte :=
  match sigf with
  | some f => f i chunk
  | none => []

/-- The body of the writer's block loop: emit `block_size` chunks of the
payload, each followed by its signature when signing is active; the final
chunk may be short.  The fuel argument only bounds the iteration count for
structural recursion: the Rust loop consumes `0x10000 > 0` payload bytes
per iteration and so always terminates, and `data.length + 1` units are
always enough (see `writeBlocks_eq`). -/
def writeBlocksGo (sigf : Option (Nat → List Byte → List Byte)) :
    Nat → List Byte → Nat → List Byte
  | 0, _, _ => []
  | fuel + 1, data, i =>
    if data.isEmpty then []
    else
      data.take SIGNATURE_STREAM_BLOCK_SIZE
      ++ sigPart sigf i (data.take SIGNATURE_STREAM_BLOCK_SIZE)
      ++ writeBlocksGo sigf fuel (data.drop SIGNATURE_STREAM_BLOCK_SIZE) (i + 1)

/-- The writer's block loop (`for block_index in 0..` of
`write_signature_stream_data`). -/
def writeBlocks (sigf : Option (Nat → List Byte → List Byte)) (data : List Byte) (i : Nat) :
    List Byte :=
  writeBlocksGo sigf (data.length + 1) data i

theorem writeBlocksGo_fuel (sigf : Option (Nat → List Byte → List Byte)) :
    ∀ fuel fuel2 data i, data.length < fuel → data.length < fuel2 →
      writeBlocksGo sigf fuel data i = writeBlocksGo sigf fuel2 data i := by
  intro fuel
  induction fuel with
  | zero => intro fuel2 data i h1 _; omega
  | succ fuel ih =>
    intro fuel2 data i h1 h2
    match fuel2, h2 with
    | fuel2 + 1, h2 =>
      simp only [writeBlocksGo]
      by_cases hemp : data.isEmpty
      · simp [hemp]
      · simp only [hemp, if_false]
        have hne : data.length ≠ 0 := by
          intro h0
          rw [List.isEmpty_iff] at hemp
          exact hemp (List.eq_nil_of_length_eq_zero h0)
        have hd : (data.drop SIGNATURE_STREAM_BLOCK_SIZE).length < fuel := by
          simp only [List.length_drop, SIGNATURE_STREAM_BLOCK_SIZE]
          omega
        have hd2 : (data.drop SIGNATURE_STREAM_BLOCK_SIZE).length < fuel2 := by
          simp only [List.length_drop, SIGNATURE_STREAM_BLOCK_SIZE]
          omega
        rw [ih fuel2 _ (i + 1) hd hd2]

theorem writeBlocksGo_succ (sigf : Option (Nat → List Byte → List Byte)) (fuel : Nat)
    (data : List Byte) (i : Nat) :
    writeBlocksGo sigf (fuel + 1) data i =
      if data.isEmpty then []
      else
        data.take SIGNATURE_STREAM_BLOCK_SIZE
        ++ sigPart sigf i (data.take SIGNATURE_STREAM_BLOCK_SIZE)
        ++ writeBlocksGo sigf fuel (data.drop SIGNATURE_STREAM_BLOCK_SIZE) (i + 1) := rfl

/-- One unfolding of the writer's block loop. -/
theorem writeBlocks_eq (sigf : Option (Nat → List Byte → List Byte)) (data : List Byte)
    (i : Nat) :
    writeBlocks sigf data i =
      if data.isEmpty then []
      else
        data.take SIGNATURE_STREAM_BLOCK_SIZE
        ++ sigPart sigf i (data.take SIGNATURE_STREAM_BLOCK_SIZE)
        ++ writeBlocks sigf (data.drop SIGNATURE_STREAM_BLOCK_SIZE) (i + 1) := by
  show writeBlocksGo sigf (data.length + 1) data i = _
  rw [writeBlocksGo_succ]
  by_cases hemp : data.isEmpty
  · simp [hemp]
  · simp only [hemp, if_false]
    have hne : data.length ≠ 0 := by
      intro h0
      rw [List.isEmpty_iff] at hemp
      exact hemp (List.eq_nil_of_length_eq_zero h0)
    have h1 : (data.drop SIGNATURE_STREAM_BLOCK_SIZE).length < data.length := by
      simp only [List.length_drop, SIGNATURE_STREAM_BLOCK_SIZE]
      omega
    rw [writeBlocksGo_fuel sigf data.length
      ((data.drop SIGNATURE_STREAM_BLOCK_SIZE).length + 1) _ (i + 1) h1 (by omega)]
    rfl

/-- `write_signature_stream_data`: the version-gated header followed by the
interleaved blocks.  The `usize` it returns in Rust (the decompressed size)
equals the length of the emitted byte list. -/
def write_signature_stream_data (e : Endian) (so : Option SignOpts) (version salt : Nat)
    (data : List Byte) : List Byte :=
  writeSigHeader e so version salt ++ writeBlocks (blockSigFn e salt version so) data 0

/-- The header fields consumed by `parse_signature_stream_data`, after the
read-time clamps. -/
structure HeaderRaw where
  version : Nat
  blockSize : Nat
  hashMethodId : Nat
  hashSize : Nat
  salt : Nat
  hasMsn : Option Nat
  hasUid : Option Nat
  sigRel : Option (List Byte)
  sigSize : Nat
  sigInfo : Option (List Byte × List Byte)
deriving DecidableEq

/-- The exact byte transcript hashed for the header signature on the READ
side (`parse_signature_stream_data`, the `verifying_info` closure): the
five fixed fields; when the `has_memory_stream_name` field was read, its
value followed by the memory-stream-name bytes whenever the flag is
non-zero and a name was supplied — with NO version ≥ 4 gate; likewise for
the user id; the signature-related string when read; then the signature
size and the sign-key-name bytes. -/
def parseHeaderHashInput (e : Endian)
    (version blockSize hashMethodId hashSize salt : Nat)
    (hasMsn hasUid : Option Nat) (sigRel : Option (List Byte))
    (msn uid : Option (List Byte)) (sigSize : Nat) (signKeyName : List Byte) : List Byte :=
  word32 e version ++ word32 e blockSize ++ word32 e hashMethodId
    ++ word32 e hashSize ++ word32 e salt
  ++ (match hasMsn with
      | none => []
      | some f => word32 e f ++ (if f ≠ 0 then msn.getD [] else []))
  ++ (match hasUid with
      | none => []
      | some f => word32 e f ++ (if f ≠ 0 then uid.getD [] else []))
  ++ (match sigRel with
      | none => []
      | some s => s)
  ++ word32 e sigSize ++ signKeyName

/-- Non-fatal diagnostics emitted via `warn!` during parsing. -/
inductive Warn where
  | noKeyInRing (name : List Byte)
  | unknownHashMethod (id : Nat)
  | msnMissing
  | uidMissing
  | invalidHeaderSig
  | invalidBlockSig (i : Nat)
deriving DecidableEq

/-- The verification environment of the parser: whether a named public key
is in the key ring, the abstract `pss.verify` oracle (hash-method id, key
name, digest transcript, signature), and the caller-supplied
memory-stream name and user id. -/
structure VerifyCtx where
  keyPresent : List Byte → Bool
  verify : Nat → List Byte → List Byte → List Byte → Bool
  msn : Option (List Byte)
  uid : Option (List Byte)

/-- The state carried from header verification to the per-block checks
(the `VerifyingInfo` struct of the source). -/
structure VerifInfo where
  keyName : List Byte
  hashMethodId : Nat
  salt : Nat
  msnBytes : Option (List Byte)
  uidBytes : Option (List Byte)

/-- The `verifying_info` closure of `parse_signature_stream_data`: resolves
the public key, validates the hash-method id, resolves the name/user-id
bytes (warning when a flagged value was not supplied), verifies the header
signature (warning on failure, never fatal), and returns the per-block
verification state.  Consumes no input. -/
def mkVerifInfo (e : Endian) (ctx : VerifyCtx) (raw : HeaderRaw) :
    Option VerifInfo × List Warn :=
  match raw.sigInfo with
  | none => (none, [])
  | some (keyName, signature) =>
    if ctx.keyPresent keyName = false then (none, [.noKeyInRing keyName])
    else if raw.hashMethodId ≠ 4 ∧ raw.hashMethodId ≠ 5 ∧ raw.hashMethodId ≠ 6 then
      (none, [.unknownHashMethod raw.hashMethodId])
    else
      let msnR : Option (List Byte) × List Warn :=
        match raw.hasMsn with
        | none => (none, [])
        | some f =>
          if f ≠ 0 then
            match ctx.msn with
            | some m => (some m, [])
            | none => (none, [.msnMissing])
          else (none, [])
      let uidR : Option (List Byte) × List Warn :=
        match raw.hasUid with
        | none => (none, [])
        | some f =>
          if f ≠ 0 then
            match ctx.uid with
            | some u => (some u, [])
            | none => (none, [.uidMissing])
          else (none, [])
      let hin := parseHeaderHashInput e raw.version raw.blockSize raw.hashMethodId
        raw.hashSize raw.salt raw.hasMsn raw.hasUid raw.sigRel ctx.msn ctx.uid
        raw.sigSize keyName
      let w3 : List Warn :=
        if ctx.verify raw.hashMethodId keyName hin signature then [] else [.invalidHeaderSig]
      (some ⟨keyName, raw.hashMethodId, raw.salt, msnR.1, uidR.1⟩,
        msnR.2 ++ uidR.2 ++ w3)

/-- The block-signature check of the parser's loop: a warning when the
signature fails to verify, nothing otherwise. -/
def blockWarn (e : Endian) (verify : Nat → List Byte → List Byte → List Byte → Bool)
    (vi : Option VerifInfo) (i : Nat) (blockData sigData : List Byte) : List Warn :=
  match vi with
  | none => []
  | some v =>
    if verify v.hashMethodId v.keyName
        (blockHashInput e v.salt i v.msnBytes v.uidBytes blockData) sigData then []
    else [.invalidBlockSig i]

/-- The parser's header, consumed field by field in version-gated order,
with the read-time clamps of the source (`block_size.clamp(0, 0x80000)`,
`hash_size.clamp(0, 0x1000)` as an i32, `signature_size.clamp(0, 0x1000)`). -/
def parseSigHeaderRaw (e : Endian) : Parser HeaderRaw :=
  pbind (readExact sigStreamMagic) fun _ =>
  pbind (readU32 e) fun version =>
  pbind (readU32 e) fun blockSizeRaw =>
  pbind (readU32 e) fun hashMethodId =>
  pbind (readU32 e) fun hashSizeRaw =>
  pbind (readByteList (if hashSizeRaw < 2147483648 then min hashSizeRaw 0x1000 else 0)) fun _ =>
  pbind (readU32 e) fun salt =>
  pbind (if 2 ≤ version then pbind (readU32 e) fun f => ppure (some f) else ppure none)
    fun hasMsn =>
  pbind (if 3 ≤ version then pbind (readU32 e) fun f => ppure (some f) else ppure none)
    fun hasUid =>
  pbind (if 5 ≤ version then pbind (parse_pascal_string e) fun s => ppure (some s)
    else ppure none) fun sigRel =>
  pbind (readU32 e) fun sigSizeRaw =>
  pbind (if 3 ≤ version ∧ 0 < min sigSizeRaw 0x1000 then
      pbind (parse_pascal_string e) fun keyName =>
      pbind (readByteList (min sigSizeRaw 0x1000)) fun sg =>
      ppure (some (keyName, sg))
    else ppure none) fun sigInfo =>
  ppure
    { version := version
      blockSize := min blockSizeRaw 0x80000
      hashMethodId := hashMethodId
      hashSize := if hashSizeRaw < 2147483648 then min hashSizeRaw 0x1000 else 0
      salt := salt
      hasMsn := hasMsn
      hasUid := hasUid
      sigRel := sigRel
      sigSize := min sigSizeRaw 0x1000
      sigInfo := sigInfo }

/-- The parser's deinterleaving loop (`for block_index in 0..`): while bytes
remain, read a full `block_size` chunk plus `signature_size` signature
bytes, or — when fewer than `block_size + signature_size` bytes remain —
a short tail of `remaining - signature_size` bytes (a WRAPPING u64
subtraction, as in release-mode Rust) plus a trailing signature.  Payload
accumulates unconditionally; signature checks only append warnings.  Fuel
exhaustion (`.div`) models non-termination of the unbounded `for`. -/
def blockLoop (e : Endian) (verify : Nat → List Byte → List Byte → List Byte → Bool)
    (vi : Option VerifInfo) (blockSize sigSize : Nat) :
    Nat → List Byte → Nat → List Byte → List Warn → PResult (List Byte × List Warn)
  | 0, _, _, _, _ => .div
  | fuel + 1, bs, i, payload, warns =>
    if bs.length = 0 then .ok (payload, warns)
    else if blockSize + sigSize ≤ bs.length then
      let blockData := bs.take blockSize
      let sigData := (bs.drop blockSize).take sigSize
      blockLoop e verify vi blockSize sigSize fuel
        (bs.drop (blockSize + sigSize)) (i + 1) (payload ++ blockData)
        (warns ++ blockWarn e verify vi i blockData sigData)
    else
      let short := (bs.length + 18446744073709551616 - sigSize) % 18446744073709551616
      let blockData := bs.take short
      let rest := bs.drop short
      if sigSize ≤ rest.length then
        let sigData := rest.take sigSize
        blockLoop e verify vi blockSize sigSize fuel
          (rest.drop sigSize) (i + 1) (payload ++ blockData)
          (warns ++ blockWarn e verify vi i blockData sigData)
      else .err .eof

/-- `parse_signature_stream_data` with explicit fuel for the block loop. -/
def parseSigStreamFuel (fuel : Nat) (e : Endian) (ctx : VerifyCtx) (input : List Byte) :
    PResult (List Byte × List Warn) :=
  match parseSigHeaderRaw e input with
  | .ok (raw, rest) =>
    let vw := mkVerifInfo e ctx raw
    blockLoop e ctx.verify vw.1 raw.blockSize raw.sigSize fuel rest 0 [] vw.2
  | .err x => .err x
  | .div => .div

/-- `parse_signature_stream_data`: parse the header, then deinterleave the
body; returns the concatenated block payloads plus the warnings emitted.
The loop consumes at least one byte per iteration except in the degenerate
`block_size = signature_size = 0` case, so `input.length + 1` units of
fuel are exact: `.div` is reachable only when the Rust loop runs forever. -/
def parse_signature_stream_data (e : Endian) (ctx : VerifyCtx) (input : List Byte) :
    PResult (List Byte × List Warn) :=
  parseSigStreamFuel (input.length + 1) e ctx input

/-- Forget the warnings of a parse result, keeping success/failure and the
payload. -/
def stripWarns : PResult (List Byte × List Warn) → PResult (List Byte)
  | .ok (p, _) => .ok p
  | .err x => .err x
  | .div => .div

/-! ### Gzip envelope (write_gz_signature_stream_data) -/

/-- The gzip member header emitted by `GzBuilder::new().extra([0u8; 0xC])
.operating_system(0)` at `Compression::new(6)`: magic `1F 8B`, deflate
method, FEXTRA flag, zero mtime, zero XFL (level 6), OS byte 0, the
little-endian XLEN = 12, then the 12 zeroed placeholder bytes of the extra
field.  24 bytes in total (`GZIP_HEADER_SIZE = 0x18`). -/
def gzHeaderBytes : List Byte :=
  [0x1f, 0x8b, 8, 4, 0, 0, 0, 0, 0, 0] ++ word16le 12 ++ List.replicate 12 0

/-- The `ExtraFieldCT` record: magic `b"CT"`, little-endian u16 field length
8, then the compressed and decompressed sizes as little-endian u32. -/
def ctExtraField (compressed_size decompressed_size : Nat) : List Byte :=
  [0x43, 0x54] ++ word16le 8 ++ word32 .little compressed_size
    ++ word32 .little decompressed_size

/-- `write_gz_signature_stream_data`: wrap the signature stream in a gzip
member (the deflate body and CRC-32 are external collaborators, abstracted
as `compress` and `crc`), then seek back to offset 0xC and overwrite the
extra-field placeholder with the `ExtraFieldCT` record, where
`compressed_size = final_position - 0x18 - 0x8`. -/
def write_gz_signature_stream_data (e : Endian) (compress : List Byte → List Byte)
    (crc : Nat) (so : Option SignOpts) (version salt : Nat) (data : List Byte) : List Byte :=
  let payload := write_signature_stream_data e so version salt data
  let body := compress payload
  let stream := gzHeaderBytes ++ body ++ word32 .little crc ++ word32 .little payload.length
  stream.take 0xC ++ ctExtraField (stream.length - 0x18 - 0x8) payload.length
    ++ stream.drop (0xC + 0xC)

/-! ### Well-formedness of a signing configuration

These facts hold of every real signing configuration: an RSA-PSS signature
has the fixed, non-zero length of the key modulus (at most 0x1000 bytes for
every key the tool can load), and a Rust `&str` key name is valid UTF-8 with
a length representable as `u32`. -/

/-- Well-formedness of the optional sign options (see section comment). -/
def SignOptsWF : Option SignOpts → Prop
  | none => True
  | some o =>
    o.signKeyName.length < 4294967296 ∧ utf8Valid o.signKeyName = true ∧
    match o.signingOutcome with
    | none => True
    | some s =>
      (∀ t, (s.sign t).length = (s.sign []).length) ∧
      0 < (s.sign []).length ∧ (s.sign []).length ≤ 0x1000

/-- The `signature_size` value the writer puts on the wire (0 when signing
is inactive, the probed signature length otherwise). -/
def blockSigSize (version : Nat) (so : Option SignOpts) : Nat :=
  match signingOf version so with
  | some (_, s) => probeLen s
  | none => 0

/-! ### C4: layout of a small unsigned version-1 stream -/

/-- C4 (counterexample): the claim says the version-1 unsigned header is
exactly 24 bytes, so the whole stream for the payload `01 02 03` would be
27 bytes; the writer actually emits 39 bytes (the header alone is
12 + 6·4 = 36 bytes). -/
theorem write_small_header_len_counterexample :
    (write_signature_stream_data .little none 1 0 [1, 2, 3]).length = 39 ∧
    ¬ (∃ hdr : List Byte, hdr.length = 24 ∧
        write_signature_stream_data .little none 1 0 [1, 2, 3] = hdr ++ [1, 2, 3]) := by
  constructor
  · decide
  · rintro ⟨hdr, hlen, heq⟩
    have h39 : (write_signature_stream_data .little none 1 0 [1, 2, 3]).length = 39 := by
      decide
    rw [heq] at h39
    simp only [List.length_append, hlen, List.length_cons, List.length_nil] at h39
    omega

/-- C4 (amended): writing the 3-byte payload `01 02 03` with version 1,
little endian and no signing produces a header of exactly 36 bytes — the
magic `SIGSTRM12GIS` plus the u32 fields version, block_size = 0x10000,
hash_method_id = 4, hash_size = 0, salt, and signature_size = 0 — followed
by only the 3 payload bytes.  Holds for every salt. -/
theorem write_small_payload_layout (salt : Nat) :
    write_signature_stream_data .little none 1 salt [1, 2, 3]
      = (sigStreamMagic ++ word32 .little 1 ++ word32 .little 0x10000
          ++ word32 .little 4 ++ word32 .little 0 ++ word32 .little salt
          ++ word32 .little 0) ++ [1, 2, 3] ∧
    (sigStreamMagic ++ word32 .little 1 ++ word32 .little 0x10000
        ++ word32 .little 4 ++ word32 .little 0 ++ word32 .little salt
        ++ word32 .little 0).length = 36 := by
  constructor
  · have hhdr : writeSigHeader .little none 1 salt
        = sigStreamMagic ++ word32 .little 1 ++ word32 .little 0x10000
          ++ word32 .little 4 ++ word32 .little 0 ++ word32 .little salt
          ++ word32 .little 0 := by
      simp [writeSigHeader, signingOf, SIGNATURE_STREAM_BLOCK_SIZE,
        SIGNATURE_STREAM_HASH_METHOD_ID]
    have hf : blockSigFn .little salt 1 none = none := by
      simp [blockSigFn, signingOf]
    have hblocks : writeBlocks (blockSigFn .little salt 1 none) [1, 2, 3] 0 = [1, 2, 3] := by
      rw [hf]
      decide
    simp only [write_signature_stream_data]
    rw [hhdr, hblocks]
  · simp [sigStreamMagic, word32_length]

/-! ### C6: the gzip extra field -/

/-- C6 (counterexample): the claim says the finalized extra field starts
with four zeroed placeholder bytes; in fact the 12 placeholder bytes are
entirely overwritten, and the extra field begins with the `CT` sub-field
magic (`0x43 0x54`), not zeros. -/
theorem gz_extra_field_counterexample :
    ((write_gz_signature_stream_data .little id 0 none 1 0 [1, 2, 3]).drop 12).take 4
      = [0x43, 0x54, 8, 0] ∧
    ([0x43, 0x54, 8, 0] : List Byte) ≠ List.replicate 4 0 := by
  constructor
  · decide
  · decide

/-- C6 (amended): the gzip extra field has length 12 and, after finalize,
consists exactly of the CT sub-field — ASCII `CT`, little-endian u16 8,
little-endian u32 `compressed_size` (the deflate body length, i.e. the
final stream position minus the 24-byte gzip header and 8-byte footer)
and little-endian u32 `decompressed_size`; the XLEN field still reads 12
and no placeholder bytes remain. -/
theorem gz_extra_field_layout (e : Endian) (compress : List Byte → List Byte) (crc : Nat)
    (so : Option SignOpts) (version salt : Nat) (data : List Byte) :
    write_gz_signature_stream_data e compress crc so version salt data
      = [0x1f, 0x8b, 8, 4, 0, 0, 0, 0, 0, 0] ++ word16le 12
        ++ ctExtraField (compress (write_signature_stream_data e so version salt data)).length
            (write_signature_stream_data e so version salt data).length
        ++ compress (write_signature_stream_data e so version salt data)
        ++ word32 .little crc
        ++ word32 .little (write_signature_stream_data e so version salt data).length ∧
    (ctExtraField (compress (write_signature_stream_data e so version salt data)).length
        (write_signature_stream_data e so version salt data).length).length = 12 := by
  constructor
  · have htake : ∀ l : List Byte, (gzHeaderBytes ++ l).take 0xC
        = [0x1f, 0x8b, 8, 4, 0, 0, 0, 0, 0, 0] ++ word16le 12 := fun _ => rfl
    have hdrop : ∀ l : List Byte, (gzHeaderBytes ++ l).drop (0xC + 0xC) = l := fun _ => rfl
    have hlen2 : (gzHeaderBytes
        ++ (compress (write_signature_stream_data e so version salt data)
            ++ word32 .little crc
            ++ word32 .little (write_signature_stream_data e so version salt data).length)).length
          - 0x18 - 0x8
        = (compress (write_signature_stream_data e so version salt data)).length := by
      simp only [List.length_append, word32_length]
      have h24 : gzHeaderBytes.length = 24 := rfl
      omega
    simp only [write_gz_signature_stream_data]
    rw [List.append_assoc gzHeaderBytes, List.append_assoc gzHeaderBytes]
    rw [htake, hdrop, hlen2]
    simp [List.append_assoc]
  · simp only [ctExtraField, List.length_append, word32_length]
    rfl

/-! ### C5: the short final block -/

theorem signingOf_eq_some {version : Nat} {so : Option SignOpts} {o : SignOpts}
    {s : SigningOutcome} (h : signingOf version so = some (o, s)) :
    so = some o ∧ o.signingOutcome = some s ∧ 3 ≤ version := by
  cases so with
  | none => simp [signingOf] at h
  | some o' =>
    cases ho : o'.signingOutcome with
    | none => simp [signingOf, ho] at h
    | some s' =>
      simp only [signingOf, ho] at h
      split at h
      · rename_i h3
        simp only [Option.some.injEq, Prod.mk.injEq] at h
        obtain ⟨h1, h2⟩ := h
        subst h1; subst h2
        exact ⟨rfl, ho, h3⟩
      · exact absurd h (by simp)

theorem blockSigFn_length {e : Endian} {salt version : Nat} {so : Option SignOpts}
    (hwf : SignOptsWF so) (i : Nat) (chunk : List Byte) :
    (sigPart (blockSigFn e salt version so) i chunk).length = blockSigSize version so := by
  simp only [sigPart, blockSigFn, blockSigSize]
  cases hso : signingOf version so with
  | none => simp
  | some os =>
    obtain ⟨o, s⟩ := os
    obtain ⟨h1, h2, _⟩ := signingOf_eq_some hso
    subst h1
    simp only [SignOptsWF, h2] at hwf
    obtain ⟨_, _, hlen, _⟩ := hwf
    simp only [probeLen]
    exact hlen _

theorem writeBlocks_last_aux (sigf : Option (Nat → List Byte → List Byte)) (ss : Nat)
    (hs : ∀ i chunk, (sigPart sigf i chunk).length = ss) :
    ∀ n data i, data.length ≤ n → data ≠ [] →
      ∃ pre sig : List Byte,
        writeBlocks sigf data i
          = pre ++ data.drop (((data.length - 1) / SIGNATURE_STREAM_BLOCK_SIZE)
              * SIGNATURE_STREAM_BLOCK_SIZE) ++ sig
        ∧ sig.length = ss := by
  intro n
  induction n with
  | zero =>
    intro data i hlen hne
    exact absurd (List.eq_nil_of_length_eq_zero (Nat.le_zero.mp hlen)) hne
  | succ n ih =>
    intro data i hlen hne
    have hemp : data.isEmpty = false := by
      cases data
      · exact absurd rfl hne
      · rfl
    rw [writeBlocks_eq, hemp]
    simp only [Bool.false_eq_true, if_false]
    have hpos : 0 < data.length := List.length_pos.mpr hne
    by_cases hsmall : data.length ≤ SIGNATURE_STREAM_BLOCK_SIZE
    · have htake : data.take SIGNATURE_STREAM_BLOCK_SIZE = data :=
        List.take_of_length_le hsmall
      have hdropBS : data.drop SIGNATURE_STREAM_BLOCK_SIZE = [] :=
        List.drop_eq_nil_of_le hsmall
      have hzero : ((data.length - 1) / SIGNATURE_STREAM_BLOCK_SIZE)
          * SIGNATURE_STREAM_BLOCK_SIZE = 0 := by
        simp only [SIGNATURE_STREAM_BLOCK_SIZE] at hsmall ⊢
        omega
      refine ⟨[], sigPart sigf i (data.take SIGNATURE_STREAM_BLOCK_SIZE), ?_, hs i _⟩
      rw [hdropBS, writeBlocks_eq]
      simp only [List.isEmpty_nil, if_true, List.append_nil, hzero, List.drop_zero,
        List.nil_append, htake]
    · push_neg at hsmall
      have hdne : data.drop SIGNATURE_STREAM_BLOCK_SIZE ≠ [] := by
        intro h0
        have := congrArg List.length h0
        simp only [List.length_drop, List.length_nil, SIGNATURE_STREAM_BLOCK_SIZE] at this
        simp only [SIGNATURE_STREAM_BLOCK_SIZE] at hsmall
        omega
      have hdlen : (data.drop SIGNATURE_STREAM_BLOCK_SIZE).length ≤ n := by
        simp only [List.length_drop, SIGNATURE_STREAM_BLOCK_SIZE] at *
        omega
      obtain ⟨pre, sig, heq, hsig⟩ := ih (data.drop SIGNATURE_STREAM_BLOCK_SIZE) (i + 1) hdlen hdne
      have hdd : (data.drop SIGNATURE_STREAM_BLOCK_SIZE).drop
          ((((data.drop SIGNATURE_STREAM_BLOCK_SIZE).length - 1) / SIGNATURE_STREAM_BLOCK_SIZE)
            * SIGNATURE_STREAM_BLOCK_SIZE)
          = data.drop (((data.length - 1) / SIGNATURE_STREAM_BLOCK_SIZE)
              * SIGNATURE_STREAM_BLOCK_SIZE) := by
        rw [List.drop_drop]
        congr 1
        simp only [List.length_drop, SIGNATURE_STREAM_BLOCK_SIZE]
        simp only [SIGNATURE_STREAM_BLOCK_SIZE] at hsmall
        omega
      rw [heq, hdd]
      refine ⟨data.take SIGNATURE_STREAM_BLOCK_SIZE
        ++ sigPart sigf i (data.take SIGNATURE_STREAM_BLOCK_SIZE)
        ++ pre, sig, ?_, hsig⟩
      simp [List.append_assoc]

/-- C5: for every non-empty payload of length L, the writer's last block
carries the final `((L - 1) mod block_size) + 1` payload bytes followed by
exactly `signature_size` signature bytes (`blockSigSize`, which is 0 when
signing is disabled). -/
theorem write_last_block_short (e : Endian) (so : Option SignOpts) (version salt : Nat)
    (data : List Byte) (hne : data ≠ []) (hwf : SignOptsWF so) :
    ∃ pre sig : List Byte,
      write_signature_stream_data e so version salt data
        = pre ++ data.drop (((data.length - 1) / SIGNATURE_STREAM_BLOCK_SIZE)
            * SIGNATURE_STREAM_BLOCK_SIZE) ++ sig
      ∧ (data.drop (((data.length - 1) / SIGNATURE_STREAM_BLOCK_SIZE)
          * SIGNATURE_STREAM_BLOCK_SIZE)).length
          = (data.length - 1) % SIGNATURE_STREAM_BLOCK_SIZE + 1
      ∧ sig.length = blockSigSize version so := by
  obtain ⟨pre, sig, heq, hsig⟩ :=
    writeBlocks_last_aux (blockSigFn e salt version so) (blockSigSize version so)
      (fun i chunk => blockSigFn_length hwf i chunk)
      data.length data 0 le_rfl hne
  refine ⟨writeSigHeader e so version salt ++ pre, sig, ?_, ?_, hsig⟩
  · simp only [write_signature_stream_data]
    rw [heq]
    simp [List.append_assoc]
  · have hpos : 0 < data.length := List.length_pos.mpr hne
    simp only [List.length_drop, SIGNATURE_STREAM_BLOCK_SIZE]
    omega

/-- C5 witness: the theorem at the payload `01 02 03`, version 1, no
signing. -/
theorem write_last_block_short_witness :
    ([1, 2, 3] : List Byte) ≠ [] ∧ SignOptsWF none ∧
    (∃ pre sig : List Byte,
      write_signature_stream_data .little none 1 0 [1, 2, 3]
        = pre ++ ([1, 2, 3] : List Byte).drop
            (((([1, 2, 3] : List Byte).length - 1) / SIGNATURE_STREAM_BLOCK_SIZE)
              * SIGNATURE_STREAM_BLOCK_SIZE) ++ sig
      ∧ (([1, 2, 3] : List Byte).drop
          (((([1, 2, 3] : List Byte).length - 1) / SIGNATURE_STREAM_BLOCK_SIZE)
            * SIGNATURE_STREAM_BLOCK_SIZE)).length
          = (([1, 2, 3] : List Byte).length - 1) % SIGNATURE_STREAM_BLOCK_SIZE + 1
      ∧ sig.length = blockSigSize 1 none) :=
  ⟨by decide, trivial,
    write_last_block_short .little none 1 0 [1, 2, 3] (by decide) trivial⟩

/-! ### C1: write-then-parse round trip -/

theorem run_step {α β : Type} {p : Parser α} {f : α → Parser β} {bs : List Byte}
    {a : α} {rest : List Byte} {r : PResult (β × List Byte)}
    (h1 : p bs = .ok (a, rest)) (h2 : f a rest = r) : pbind p f bs = r := by
  rw [pbind_apply h1, h2]

theorem readByteList_zero (bs : List Byte) : readByteList 0 bs = .ok ([], bs) := by
  simp [readByteList]

theorem readU32_word32_lt {e : Endian} {v : Nat} (hv : v < 4294967296) (rest : List Byte) :
    readU32 e (word32 e v ++ rest) = .ok (v, rest) := by
  rw [readU32_word32, Nat.mod_eq_of_lt hv]

theorem optWordStep (e : Endian) (c : Prop) [Decidable c] {v : Nat} (hv : v < 4294967296)
    (rest : List Byte) :
    (if c then pbind (readU32 e) fun f => ppure (some f) else ppure none)
      ((if c then word32 e v else []) ++ rest)
      = .ok ((if c then some v else none), rest) := by
  by_cases h : c
  · simp only [h, if_true, List.append_assoc]
    exact run_step (readU32_word32_lt hv rest) rfl
  · simp [h, ppure]

theorem optPascalStep (e : Endian) (c : Prop) [Decidable c] (rest : List Byte) :
    (if c then pbind (parse_pascal_string e) fun s => ppure (some s) else ppure none)
      ((if c then word32 e 0 else []) ++ rest)
      = .ok ((if c then some [] else none), rest) := by
  by_cases h : c
  · simp only [h, if_true]
    have hw : (word32 e 0 : List Byte) ++ rest = write_pascal_string e [] ++ rest := by
      simp [write_pascal_string]
    rw [hw]
    exact run_step (parse_pascal_string_append rest (by decide) (by decide)) rfl
  · simp [h, ppure]

theorem msnFlag_lt (so : Option SignOpts) : msnFlag so < 4294967296 := by
  cases so with
  | none => decide
  | some o => simp only [msnFlag]; split <;> decide

theorem uidFlag_lt (so : Option SignOpts) : uidFlag so < 4294967296 := by
  cases so with
  | none => decide
  | some o => simp only [uidFlag]; split <;> decide

/-- The header record that parsing recovers from a stream produced by
`writeSigHeader` (see `parseSigHeaderRaw_write`). -/
def headerRawOf (e : Endian) (so : Option SignOpts) (version salt : Nat) : HeaderRaw :=
  { version := version
    blockSize := SIGNATURE_STREAM_BLOCK_SIZE
    hashMethodId := SIGNATURE_STREAM_HASH_METHOD_ID
    hashSize := 0
    salt := salt % 4294967296
    hasMsn := if 2 ≤ version then some (msnFlag so) else none
    hasUid := if 3 ≤ version then some (uidFlag so) else none
    sigRel := if 5 ≤ version then some [] else none
    sigSize := blockSigSize version so
    sigInfo := match signingOf version so with
      | some (o, s) => some (o.signKeyName, headerSigOf e version salt o s)
      | none => none }

theorem headerSigOf_length {version : Nat} {so : Option SignOpts} {o : SignOpts}
    {s : SigningOutcome} (hso : signingOf version so = some (o, s)) (hwf : SignOptsWF so)
    (e : Endian) (salt : Nat) :
    (headerSigOf e version salt o s).length = probeLen s ∧ 0 < probeLen s ∧
      probeLen s ≤ 0x1000 ∧ o.signKeyName.length < 4294967296 ∧
      utf8Valid o.signKeyName = true := by
  obtain ⟨h1, h2, _⟩ := signingOf_eq_some hso
  subst h1
  simp only [SignOptsWF, h2] at hwf
  obtain ⟨hk1, hk2, hlen, hpos, hle⟩ := hwf
  exact ⟨hlen _, hpos, hle, hk1, hk2⟩

theorem parseSigHeaderRaw_write (e : Endian) (so : Option SignOpts) (version salt : Nat)
    (hv : version < 4294967296) (hwf : SignOptsWF so) (body : List Byte) :
    parseSigHeaderRaw e (writeSigHeader e so version salt ++ body)
      = .ok (headerRawOf e so version salt, body) := by
  have hinput : writeSigHeader e so version salt ++ body
      = sigStreamMagic ++ (word32 e version ++ (word32 e SIGNATURE_STREAM_BLOCK_SIZE
        ++ (word32 e SIGNATURE_STREAM_HASH_METHOD_ID ++ (word32 e 0 ++ (word32 e salt
        ++ ((if 2 ≤ version then word32 e (msnFlag so) else [])
          ++ ((if 3 ≤ version then word32 e (uidFlag so) else [])
            ++ ((if 5 ≤ version then word32 e 0 else [])
              ++ ((match signingOf version so with
                  | some (o, s) =>
                    word32 e (headerSigOf e version salt o s).length
                      ++ write_pascal_string e o.signKeyName ++ headerSigOf e version salt o s
                  | none => word32 e 0) ++ body))))))))) := by
    simp only [writeSigHeader, List.append_assoc]
  rw [hinput]
  have hbls : ∀ bs : List Byte,
      readByteList (if (0 : Nat) < 2147483648 then min 0 0x1000 else 0) bs = .ok ([], bs) := by
    intro bs
    have hbl : (if (0 : Nat) < 2147483648 then min 0 0x1000 else 0) = 0 := by decide
    rw [hbl]
    exact readByteList_zero bs
  show pbind (readExact sigStreamMagic) _ _ = _
  refine run_step (readExact_append _ _) ?_
  refine run_step (readU32_word32_lt hv _) ?_
  refine run_step (readU32_word32_lt (by decide) _) ?_
  refine run_step (readU32_word32_lt (by decide) _) ?_
  refine run_step (readU32_word32_lt (by decide) _) ?_
  refine run_step (hbls _) ?_
  refine run_step (readU32_word32 e salt _) ?_
  refine run_step (optWordStep e (2 ≤ version) (msnFlag_lt so) _) ?_
  refine run_step (optWordStep e (3 ≤ version) (uidFlag_lt so) _) ?_
  refine run_step (optPascalStep e (5 ≤ version) _) ?_
  cases hso : signingOf version so with
  | none =>
    simp only [List.append_assoc]
    refine run_step (readU32_word32_lt (by decide) _) ?_
    have hc : ¬ (3 ≤ version ∧ 0 < min 0 0x1000) := by
      rintro ⟨_, h⟩
      simp at h
    have hnone : ∀ bs : List Byte,
        (if 3 ≤ version ∧ 0 < min 0 0x1000 then
          pbind (parse_pascal_string e) fun keyName =>
          pbind (readByteList (min 0 0x1000)) fun sg =>
          ppure (some (keyName, sg))
        else ppure none) bs = .ok ((none : Option (List Byte × List Byte)), bs) := by
      intro bs
      rw [if_neg hc]
      rfl
    refine run_step (hnone _) ?_
    simp only [ppure, PResult.ok.injEq, Prod.mk.injEq, and_true]
    simp only [headerRawOf, hso, blockSigSize, SIGNATURE_STREAM_BLOCK_SIZE,
      SIGNATURE_STREAM_HASH_METHOD_ID, HeaderRaw.mk.injEq]
    repeat' apply And.intro
    all_goals first
      | rfl
      | trivial
  | some os =>
    obtain ⟨o, s⟩ := os
    obtain ⟨hsg, hpos, hle, hklen, hkutf⟩ := headerSigOf_length hso hwf e salt
    have h3 : 3 ≤ version := (signingOf_eq_some hso).2.2
    simp only [List.append_assoc]
    refine run_step (readU32_word32_lt (by omega) _) ?_
    have hmin : min (headerSigOf e version salt o s).length 0x1000
        = (headerSigOf e version salt o s).length := by
      rw [hsg]; omega
    have hc : (3 ≤ version ∧ 0 < min (headerSigOf e version salt o s).length 0x1000) := by
      rw [hmin, hsg]
      exact ⟨h3, hpos⟩
    have hsome :
        (if 3 ≤ version ∧ 0 < min (headerSigOf e version salt o s).length 0x1000 then
          pbind (parse_pascal_string e) fun keyName =>
          pbind (readByteList (min (headerSigOf e version salt o s).length 0x1000)) fun sg =>
          ppure (some (keyName, sg))
        else ppure none)
          (write_pascal_string e o.signKeyName ++ (headerSigOf e version salt o s ++ body))
        = .ok (some (o.signKeyName, headerSigOf e version salt o s), body) := by
      rw [if_pos hc]
      refine run_step (parse_pascal_string_append _ hklen hkutf) ?_
      have hrb : readByteList (min (headerSigOf e version salt o s).length 0x1000)
          (headerSigOf e version salt o s ++ body)
          = .ok (headerSigOf e version salt o s, body) := by
        rw [hmin]
        exact readByteList_append body
      exact run_step hrb rfl
    refine run_step hsome ?_
    simp only [ppure, PResult.ok.injEq, Prod.mk.injEq, and_true]
    simp only [headerRawOf, hso, blockSigSize, SIGNATURE_STREAM_BLOCK_SIZE,
      SIGNATURE_STREAM_HASH_METHOD_ID, HeaderRaw.mk.injEq, probeLen]
    repeat' apply And.intro
    all_goals first
      | rfl
      | trivial
      | (rw [hmin, hsg]; rfl)

theorem blockLoop_succ (e : Endian) (verify : Nat → List Byte → List Byte → List Byte → Bool)
    (vi : Option VerifInfo) (blockSize sigSize fuel : Nat) (bs : List Byte) (i : Nat)
    (payload : List Byte) (warns : List Warn) :
    blockLoop e verify vi blockSize sigSize (fuel + 1) bs i payload warns =
      if bs.length = 0 then .ok (payload, warns)
      else if blockSize + sigSize ≤ bs.length then
        blockLoop e verify vi blockSize sigSize fuel
          (bs.drop (blockSize + sigSize)) (i + 1) (payload ++ bs.take blockSize)
          (warns ++ blockWarn e verify vi i (bs.take blockSize)
            ((bs.drop blockSize).take sigSize))
      else
        if sigSize ≤ (bs.drop ((bs.length + 18446744073709551616 - sigSize)
            % 18446744073709551616)).length then
          blockLoop e verify vi blockSize sigSize fuel
            ((bs.drop ((bs.length + 18446744073709551616 - sigSize)
              % 18446744073709551616)).drop sigSize) (i + 1)
            (payload ++ bs.take ((bs.length + 18446744073709551616 - sigSize)
              % 18446744073709551616))
            (warns ++ blockWarn e verify vi i
              (bs.take ((bs.length + 18446744073709551616 - sigSize) % 18446744073709551616))
              ((bs.drop ((bs.length + 18446744073709551616 - sigSize)
                % 18446744073709551616)).take sigSize))
        else .err .eof := rfl

theorem blockLoop_nil (e : Endian) (verify : Nat → List Byte → List Byte → List Byte → Bool)
    (vi : Option VerifInfo) (blockSize sigSize fuel : Nat) (i : Nat)
    (payload : List Byte) (warns : List Warn) (hf : 0 < fuel) :
    blockLoop e verify vi blockSize sigSize fuel [] i payload warns = .ok (payload, warns) := by
  match fuel, hf with
  | fuel + 1, _ => rw [blockLoop_succ]; simp

theorem blockLoop_writeBlocks (e : Endian)
    (verify : Nat → List Byte → List Byte → List Byte → Bool) (vi : Option VerifInfo)
    (sigf : Option (Nat → List Byte → List Byte)) (ss : Nat)
    (hs : ∀ i chunk, (sigPart sigf i chunk).length = ss) :
    ∀ n data, data.length ≤ n → ∀ fuel i payload warns,
      (writeBlocks sigf data i).length < fuel →
      ∃ w2, blockLoop e verify vi SIGNATURE_STREAM_BLOCK_SIZE ss fuel
          (writeBlocks sigf data i) i payload warns = .ok (payload ++ data, w2) := by
  intro n
  induction n with
  | zero =>
    intro data hlen fuel i payload warns hfuel
    have hdnil : data = [] := List.eq_nil_of_length_eq_zero (Nat.le_zero.mp hlen)
    subst hdnil
    rw [writeBlocks_eq] at hfuel ⊢
    simp only [List.isEmpty_nil, if_true] at hfuel ⊢
    exact ⟨warns, by rw [blockLoop_nil _ _ _ _ _ _ _ _ _ hfuel]; simp⟩
  | succ n ih =>
    intro data hlen fuel i payload warns hfuel
    by_cases hdnil : data = []
    · subst hdnil
      rw [writeBlocks_eq] at hfuel ⊢
      simp only [List.isEmpty_nil, if_true] at hfuel ⊢
      exact ⟨warns, by rw [blockLoop_nil _ _ _ _ _ _ _ _ _ hfuel]; simp⟩
    · have hemp : data.isEmpty = false := by
        cases data
        · exact absurd rfl hdnil
        · rfl
      have hpos : 0 < data.length := List.length_pos.mpr hdnil
      rw [writeBlocks_eq, hemp] at hfuel ⊢
      simp only [Bool.false_eq_true, if_false] at hfuel ⊢
      set chunk := data.take SIGNATURE_STREAM_BLOCK_SIZE with hchunk
      set sp := sigPart sigf i chunk with hsp
      set wbrest := writeBlocks sigf (data.drop SIGNATURE_STREAM_BLOCK_SIZE) (i + 1) with hwbrest
      have hsplen : sp.length = ss := hs i chunk
      have hchunklen : chunk.length = min SIGNATURE_STREAM_BLOCK_SIZE data.length := by
        rw [hchunk, List.length_take]
      have hchunkpos : 0 < chunk.length := by
        rw [hchunklen]
        simp only [SIGNATURE_STREAM_BLOCK_SIZE]
        omega
      match fuel, hfuel with
      | fuel + 1, hfuel =>
        rw [blockLoop_succ]
        have hbslen : (chunk ++ sp ++ wbrest).length = chunk.length + ss + wbrest.length := by
          simp only [List.length_append, hsplen]
        rw [if_neg (by omega)]
        by_cases hbig : SIGNATURE_STREAM_BLOCK_SIZE ≤ data.length
        · have hcl : chunk.length = SIGNATURE_STREAM_BLOCK_SIZE := by omega
          have hfull : SIGNATURE_STREAM_BLOCK_SIZE + ss ≤ (chunk ++ sp ++ wbrest).length := by
            omega
          rw [if_pos hfull]
          have htk : (chunk ++ sp ++ wbrest).take SIGNATURE_STREAM_BLOCK_SIZE = chunk := by
            rw [List.append_assoc, ← hcl, List.take_left]
          have hdp : (chunk ++ sp ++ wbrest).drop (SIGNATURE_STREAM_BLOCK_SIZE + ss) = wbrest := by
            have : (chunk ++ sp).length = SIGNATURE_STREAM_BLOCK_SIZE + ss := by
              simp [hcl, hsplen]
            rw [← this, List.drop_left]
          rw [htk, hdp]
          have hrest_lt : wbrest.length < fuel := by omega
          have hrest_len : (data.drop SIGNATURE_STREAM_BLOCK_SIZE).length ≤ n := by
            simp only [List.length_drop, SIGNATURE_STREAM_BLOCK_SIZE] at *
            omega
          obtain ⟨w2, hw2⟩ := ih (data.drop SIGNATURE_STREAM_BLOCK_SIZE) hrest_len fuel (i + 1)
            (payload ++ chunk) _ hrest_lt
          refine ⟨w2, ?_⟩
          rw [hw2, List.append_assoc, hchunk, List.take_append_drop]
        · push_neg at hbig
          have hcl : chunk = data := by
            rw [hchunk]
            exact List.take_of_length_le (by omega)
          have hwbnil : wbrest = [] := by
            rw [hwbrest, List.drop_eq_nil_of_le (by omega), writeBlocks_eq]
            simp
          have hlen2 : (chunk ++ sp ++ wbrest).length = data.length + ss := by
            rw [hbslen, hcl, hwbnil]
            simp
          have hshort : (( (chunk ++ sp ++ wbrest).length + 18446744073709551616 - ss)
              % 18446744073709551616) = data.length := by
            rw [hlen2]
            have hd64 : data.length < 18446744073709551616 := by
              simp only [SIGNATURE_STREAM_BLOCK_SIZE] at hbig
              omega
            omega
          have hnofull : ¬ (SIGNATURE_STREAM_BLOCK_SIZE + ss ≤ (chunk ++ sp ++ wbrest).length) := by
            rw [hlen2]
            omega
          rw [if_neg hnofull, hshort]
          have hdl : data.length = chunk.length := by rw [hcl]
          have htk : (chunk ++ sp ++ wbrest).take data.length = data := by
            rw [hwbnil, List.append_nil, hdl, List.take_left]
            exact hcl
          have hdpl : (chunk ++ sp ++ wbrest).drop data.length = sp := by
            rw [hwbnil, List.append_nil, hdl, List.drop_left]
          rw [htk, hdpl, if_pos (by omega)]
          rw [List.drop_eq_nil_of_le (by omega)]
          have hfge : 0 < fuel := by omega
          refine ⟨warns ++ blockWarn e verify vi i data (sp.take ss), ?_⟩
          rw [blockLoop_nil _ _ _ _ _ _ _ _ _ hfge]

/-- C1: container round trip.  For every payload, endianness, version (a
`u32`) and well-formed signing configuration, writing with
`write_signature_stream_data` and then parsing the produced bytes with
`parse_signature_stream_data` succeeds and returns exactly the original
payload bytes, regardless of the verification environment. -/
theorem sigstream_write_parse_roundtrip (e : Endian) (ctx : VerifyCtx)
    (so : Option SignOpts) (version salt : Nat) (data : List Byte)
    (hv : version < 4294967296) (hwf : SignOptsWF so) :
    ∃ w, parse_signature_stream_data e ctx
        (write_signature_stream_data e so version salt data) = .ok (data, w) := by
  have hinput : write_signature_stream_data e so version salt data
      = writeSigHeader e so version salt
        ++ writeBlocks (blockSigFn e salt version so) data 0 := rfl
  have hraw := parseSigHeaderRaw_write e so version salt hv hwf
    (writeBlocks (blockSigFn e salt version so) data 0)
  have hfuel : (writeBlocks (blockSigFn e salt version so) data 0).length
      < (write_signature_stream_data e so version salt data).length + 1 := by
    rw [hinput]
    simp only [List.length_append]
    omega
  obtain ⟨w2, hw2⟩ := blockLoop_writeBlocks e ctx.verify
    (mkVerifInfo e ctx (headerRawOf e so version salt)).1
    (blockSigFn e salt version so) (blockSigSize version so)
    (fun i chunk => blockSigFn_length hwf i chunk)
    data.length data le_rfl
    ((write_signature_stream_data e so version salt data).length + 1) 0 []
    (mkVerifInfo e ctx (headerRawOf e so version salt)).2 hfuel
  refine ⟨w2, ?_⟩
  show parseSigStreamFuel _ e ctx _ = _
  rw [parseSigStreamFuel]
  rw [show parseSigHeaderRaw e (write_signature_stream_data e so version salt data)
      = .ok (headerRawOf e so version salt,
          writeBlocks (blockSigFn e salt version so) data 0) by
    rw [hinput]; exact hraw]
  show blockLoop e ctx.verify _ (headerRawOf e so version salt).blockSize
      (headerRawOf e so version salt).sigSize _ _ 0 [] _ = _
  have hbs : (headerRawOf e so version salt).blockSize = SIGNATURE_STREAM_BLOCK_SIZE := rfl
  have hss : (headerRawOf e so version salt).sigSize = blockSigSize version so := rfl
  rw [hbs, hss, hw2]
  simp

/-- C1 witness: round trip of the payload `01 02 03` at version 5, little
endian, with an active signing configuration (2-byte abstract signatures,
key name `K`). -/
theorem sigstream_write_parse_roundtrip_witness :
    (5 : Nat) < 4294967296 ∧
    SignOptsWF (some ⟨[0x4B], some [0x4D], some [0x55], some ⟨fun _ => [7, 8]⟩⟩) ∧
    ∃ w, parse_signature_stream_data .little
        ⟨fun _ => true, fun _ _ _ _ => true, some [0x4D], some [0x55]⟩
        (write_signature_stream_data .little
          (some ⟨[0x4B], some [0x4D], some [0x55], some ⟨fun _ => [7, 8]⟩⟩) 5 9 [1, 2, 3])
      = .ok ([1, 2, 3], w) :=
  ⟨by decide, ⟨by decide, by decide, fun _ => rfl, by decide, by decide⟩,
    sigstream_write_parse_roundtrip .little
      ⟨fun _ => true, fun _ _ _ _ => true, some [0x4D], some [0x55]⟩
      (some ⟨[0x4B], some [0x4D], some [0x55], some ⟨fun _ => [7, 8]⟩⟩) 5 9 [1, 2, 3]
      (by decide)
      ⟨by decide, by decide, fun _ => rfl, by decide, by decide⟩⟩

/-! ### C9: signature verification failures are never fatal -/

theorem blockLoop_stripWarns (e : Endian)
    (v1 v2 : Nat → List Byte → List Byte → List Byte → Bool)
    (vi1 vi2 : Option VerifInfo) (blockSize sigSize : Nat) :
    ∀ fuel bs i payload w1 w2,
      stripWarns (blockLoop e v1 vi1 blockSize sigSize fuel bs i payload w1)
        = stripWarns (blockLoop e v2 vi2 blockSize sigSize fuel bs i payload w2) := by
  intro fuel
  induction fuel with
  | zero => intro bs i payload w1 w2; rfl
  | succ fuel ih =>
    intro bs i payload w1 w2
    rw [blockLoop_succ, blockLoop_succ]
    by_cases h0 : bs.length = 0
    · simp only [h0, if_pos rfl]
      rfl
    · rw [if_neg h0, if_neg h0]
      by_cases hfull : blockSize + sigSize ≤ bs.length
      · rw [if_pos hfull, if_pos hfull]
        exact ih _ _ _ _ _
      · rw [if_neg hfull, if_neg hfull]
        by_cases hshort : sigSize ≤ (bs.drop ((bs.length + 18446744073709551616 - sigSize)
            % 18446744073709551616)).length
        · rw [if_pos hshort, if_pos hshort]
          exact ih _ _ _ _ _
        · rw [if_neg hshort, if_neg hshort]

/-- C9: parsing never fails because of signature verification.  The
success/error outcome and the returned payload of
`parse_signature_stream_data` are identical under every verification
environment (key ring contents, verification oracle, supplied
memory-stream name and user id); only the warnings differ.  In
particular, an input that parses to `Ok` under an oracle accepting every
signature still parses to `Ok` with the same payload when the header
signature or any block signature fails to verify. -/
theorem parse_payload_verification_independent (e : Endian) (ctx1 ctx2 : VerifyCtx)
    (input : List Byte) :
    stripWarns (parse_signature_stream_data e ctx1 input)
      = stripWarns (parse_signature_stream_data e ctx2 input) := by
  show stripWarns (parseSigStreamFuel _ e ctx1 input)
    = stripWarns (parseSigStreamFuel _ e ctx2 input)
  rw [parseSigStreamFuel, parseSigStreamFuel]
  cases h : parseSigHeaderRaw e input with
  | ok rr =>
    obtain ⟨raw, rest⟩ := rr
    exact blockLoop_stripWarns e ctx1.verify ctx2.verify _ _ _ _ _ _ _ _ _ _
  | err x => rfl
  | div => rfl

/-! ### C10: termination behaviour of the parser -/

theorem optWord_rest_le {e : Endian} {c : Prop} [Decidable c] {bs rest : List Byte}
    {v : Option Nat}
    (h : (if c then pbind (readU32 e) fun f => ppure (some f) else ppure none) bs
      = .ok (v, rest)) : rest.length ≤ bs.length := by
  by_cases hc : c
  · rw [if_pos hc, pbind_ok] at h
    obtain ⟨a, r1, h1, h2⟩ := h
    obtain ⟨hbs, _⟩ := readU32_inv h1
    simp only [ppure, PResult.ok.injEq, Prod.mk.injEq] at h2
    obtain ⟨_, hr⟩ := h2
    subst hr
    rw [hbs]
    simp
  · rw [if_neg hc] at h
    simp only [ppure, PResult.ok.injEq, Prod.mk.injEq] at h
    obtain ⟨_, hr⟩ := h
    subst hr
    exact le_rfl

theorem optPascal_rest_le {e : Endian} {c : Prop} [Decidable c] {bs rest : List Byte}
    {v : Option (List Byte)}
    (h : (if c then pbind (parse_pascal_string e) fun s => ppure (some s) else ppure none) bs
      = .ok (v, rest)) : rest.length ≤ bs.length := by
  by_cases hc : c
  · rw [if_pos hc, pbind_ok] at h
    obtain ⟨a, r1, h1, h2⟩ := h
    obtain ⟨hbs, _⟩ := parse_pascal_string_inv h1
    simp only [ppure, PResult.ok.injEq, Prod.mk.injEq] at h2
    obtain ⟨_, hr⟩ := h2
    subst hr
    rw [hbs]
    simp
  · rw [if_neg hc] at h
    simp only [ppure, PResult.ok.injEq, Prod.mk.injEq] at h
    obtain ⟨_, hr⟩ := h
    subst hr
    exact le_rfl

theorem sigInfo_rest_le {e : Endian} {c : Prop} [Decidable c] {n : Nat}
    {bs rest : List Byte} {v : Option (List Byte × List Byte)}
    (h : (if c then
        pbind (parse_pascal_string e) fun keyName =>
        pbind (readByteList n) fun sg =>
        ppure (some (keyName, sg))
      else ppure none) bs = .ok (v, rest)) : rest.length ≤ bs.length := by
  by_cases hc : c
  · rw [if_pos hc, pbind_ok] at h
    obtain ⟨a, r1, h1, h2⟩ := h
    rw [pbind_ok] at h2
    obtain ⟨a2, r2, h21, h22⟩ := h2
    obtain ⟨hbs, _⟩ := parse_pascal_string_inv h1
    obtain ⟨hbs2, _⟩ := readByteList_inv h21
    simp only [ppure, PResult.ok.injEq, Prod.mk.injEq] at h22
    obtain ⟨_, hr⟩ := h22
    subst hr
    rw [hbs, hbs2]
    simp only [List.length_append]
    omega
  · rw [if_neg hc] at h
    simp only [ppure, PResult.ok.injEq, Prod.mk.injEq] at h
    obtain ⟨_, hr⟩ := h
    subst hr
    exact le_rfl

theorem parseSigHeaderRaw_rest_le {e : Endian} {input rest : List Byte} {raw : HeaderRaw}
    (h : parseSigHeaderRaw e input = .ok (raw, rest)) :
    rest.length ≤ input.length ∧ raw.sigSize ≤ 0x1000 := by
  simp only [parseSigHeaderRaw, pbind_ok] at h
  obtain ⟨u0, r0, h0, version, r1, h1, bsRaw, r2, h2, hmId, r3, h3, hsRaw, r4, h4,
    skip, r5, h5, salt, r6, h6, hasMsn, r7, h7, hasUid, r8, h8, sigRel, r9, h9,
    ssRaw, r10, h10, sigInfo, r11, h11, hfin⟩ := h
  simp only [ppure, PResult.ok.injEq, Prod.mk.injEq] at hfin
  obtain ⟨hraw, hrest⟩ := hfin
  subst hrest
  constructor
  · have e0 : r0.length ≤ input.length := by rw [readExact_inv h0]; simp
    have e1 : r1.length ≤ r0.length := by rw [(readU32_inv h1).1]; simp
    have e2 : r2.length ≤ r1.length := by rw [(readU32_inv h2).1]; simp
    have e3 : r3.length ≤ r2.length := by rw [(readU32_inv h3).1]; simp
    have e4 : r4.length ≤ r3.length := by rw [(readU32_inv h4).1]; simp
    have e5 : r5.length ≤ r4.length := by
      rw [(readByteList_inv h5).1]; simp
    have e6 : r6.length ≤ r5.length := by rw [(readU32_inv h6).1]; simp
    have e7 : r7.length ≤ r6.length := optWord_rest_le h7
    have e8 : r8.length ≤ r7.length := optWord_rest_le h8
    have e9 : r9.length ≤ r8.length := optPascal_rest_le h9
    have e10 : r10.length ≤ r9.length := by rw [(readU32_inv h10).1]; simp
    have e11 : r11.length ≤ r10.length := sigInfo_rest_le h11
    omega
  · rw [← hraw]
    simp only
    omega

theorem blockLoop_total (e : Endian)
    (verify : Nat → List Byte → List Byte → List Byte → Bool) (vi : Option VerifInfo)
    (blockSize sigSize : Nat) (hpos : 0 < blockSize + sigSize)
    (hssN : sigSize ≤ 18446744073709551616) :
    ∀ fuel bs i payload warns, bs.length < fuel →
      bs.length < 18446744073709551616 →
      blockLoop e verify vi blockSize sigSize fuel bs i payload warns ≠ .div := by
  intro fuel
  induction fuel with
  | zero => intro bs i payload warns hf _; omega
  | succ fuel ih =>
    intro bs i payload warns hf hN
    rw [blockLoop_succ]
    by_cases h0 : bs.length = 0
    · rw [if_pos h0]
      simp
    · rw [if_neg h0]
      by_cases hfull : blockSize + sigSize ≤ bs.length
      · rw [if_pos hfull]
        refine ih _ _ _ _ ?_ ?_ <;>
          simp only [List.length_drop] <;>
          omega
      · rw [if_neg hfull]
        by_cases hle : sigSize ≤ bs.length
        · have hshort : (bs.length + 18446744073709551616 - sigSize) % 18446744073709551616
              = bs.length - sigSize := by
            omega
          rw [hshort]
          have hr : (bs.drop (bs.length - sigSize)).length = sigSize := by
            simp only [List.length_drop]
            omega
          rw [if_pos (by omega)]
          refine ih _ _ _ _ ?_ ?_ <;>
            simp only [List.length_drop] <;>
            omega
        · push_neg at hle
          have hshort : (bs.length + 18446744073709551616 - sigSize) % 18446744073709551616
              = bs.length + 18446744073709551616 - sigSize := by
            omega
          rw [hshort]
          have hr : (bs.drop (bs.length + 18446744073709551616 - sigSize)).length = 0 := by
            simp only [List.length_drop]
            omega
          rw [if_neg (by omega)]
          simp

theorem blockLoop_degenerate_div (e : Endian)
    (verify : Nat → List Byte → List Byte → List Byte → Bool) (vi : Option VerifInfo) :
    ∀ fuel bs i payload warns, bs ≠ [] →
      blockLoop e verify vi 0 0 fuel bs i payload warns = .div := by
  intro fuel
  induction fuel with
  | zero => intro bs i payload warns _; rfl
  | succ fuel ih =>
    intro bs i payload warns hne
    rw [blockLoop_succ]
    have h0 : bs.length ≠ 0 := by
      intro h
      exact hne (List.eq_nil_of_length_eq_zero h)
    rw [if_neg h0, if_pos (by omega)]
    simp only [Nat.add_zero, List.drop_zero]
    exact ih _ _ _ _ hne

/-- The verification environment used in the divergence counterexample:
empty key ring, rejecting oracle, no names supplied. -/
def ctxTriv : VerifyCtx := ⟨fun _ => false, fun _ _ _ _ => false, none, none⟩

/-- A stream whose header decodes `block_size = 0` and
`signature_size = 0` but which still has one body byte: the parser's
block loop then consumes nothing on every iteration and never
terminates. -/
def divergentInput : List Byte :=
  sigStreamMagic ++ word32 .little 1 ++ word32 .little 0 ++ word32 .little 0
    ++ word32 .little 0 ++ word32 .little 0 ++ word32 .little 0 ++ [0xAA]

/-- C10 (counterexample): `parse_signature_stream_data` does NOT return Ok
or an error on every input: on `divergentInput` (header fields
`block_size = 0`, `signature_size = 0`, one body byte) the `for
block_index in 0..` loop never terminates — the fueled model returns
`.div` at every fuel. -/
theorem parse_divergence_counterexample :
    (∀ fuel, parseSigStreamFuel fuel .little ctxTriv divergentInput = .div) ∧
    parse_signature_stream_data .little ctxTriv divergentInput = .div := by
  have hhdr : parseSigHeaderRaw .little divergentInput
      = .ok (⟨1, 0, 0, 0, 0, none, none, none, 0, none⟩, [0xAA]) := by decide
  have hone : ∀ fuel, parseSigStreamFuel fuel .little ctxTriv divergentInput = .div := by
    intro fuel
    rw [parseSigStreamFuel, hhdr]
    exact blockLoop_degenerate_div .little ctxTriv.verify _ fuel [0xAA] 0 [] _ (by decide)
  exact ⟨hone, hone _⟩

/-- C10 (amended): the parser is total except in one degenerate case.  (a)
Dichotomy: for every input, either `parse_signature_stream_data` returns
a value (Ok or a fatal error — its standard fuel `input.length + 1`
suffices), or the block loop genuinely diverges: the fueled model returns
`.div` at every fuel (reachable only when the decoded `block_size` and
`signature_size` are both zero with body bytes remaining).  (b) The short
tail with `remaining < signature_size`: the u64 subtraction
`remaining - signature_size` wraps (release semantics), the huge `take`
reads to end-of-stream and the following exact read of the signature
fails, so the loop ends in an `UnexpectedEof` error — not a panic. -/
theorem parse_termination_dichotomy :
    (∀ (e : Endian) (ctx : VerifyCtx) (input : List Byte),
      input.length < 18446744073709551616 →
      parse_signature_stream_data e ctx input ≠ .div
      ∨ ∀ fuel, parseSigStreamFuel fuel e ctx input = .div) ∧
    (∀ (e : Endian) (verify : Nat → List Byte → List Byte → List Byte → Bool)
      (vi : Option VerifInfo) (blockSize sigSize fuel i : Nat)
      (bs payload : List Byte) (warns : List Warn),
      bs ≠ [] → bs.length < sigSize → sigSize ≤ 18446744073709551616 →
      blockLoop e verify vi blockSize sigSize (fuel + 1) bs i payload warns
        = .err .eof) := by
  constructor
  · intro e ctx input hN
    show parseSigStreamFuel _ e ctx input ≠ .div ∨ _
    cases hh : parseSigHeaderRaw e input with
    | err x =>
      left
      rw [parseSigStreamFuel, hh]
      simp
    | div =>
      right
      intro fuel
      rw [parseSigStreamFuel, hh]
    | ok rr =>
      obtain ⟨raw, rest⟩ := rr
      obtain ⟨hrle, hss⟩ := parseSigHeaderRaw_rest_le hh
      by_cases hdeg : 0 < raw.blockSize + raw.sigSize
      · left
        rw [parseSigStreamFuel, hh]
        exact blockLoop_total e ctx.verify _ raw.blockSize raw.sigSize hdeg (by omega)
          _ rest 0 [] _ (by omega) (by omega)
      · push_neg at hdeg
        have hbz : raw.blockSize = 0 := by omega
        have hsz : raw.sigSize = 0 := by omega
        by_cases hrest : rest = []
        · left
          subst hrest
          rw [parseSigStreamFuel, hh]
          show blockLoop e ctx.verify (mkVerifInfo e ctx raw).1 raw.blockSize raw.sigSize
            (input.length + 1) [] 0 [] (mkVerifInfo e ctx raw).2 ≠ .div
          rw [blockLoop_nil _ _ _ _ _ _ _ _ _ (by omega)]
          simp
        · right
          intro fuel
          rw [parseSigStreamFuel, hh]
          show blockLoop e ctx.verify (mkVerifInfo e ctx raw).1 raw.blockSize raw.sigSize
            fuel rest 0 [] (mkVerifInfo e ctx raw).2 = .div
          rw [hbz, hsz]
          exact blockLoop_degenerate_div e ctx.verify _ fuel rest 0 [] _ hrest
  · intro e verify vi blockSize sigSize fuel i bs payload warns hne hlt hssN
    rw [blockLoop_succ]
    have h0 : bs.length ≠ 0 := by
      intro h
      exact hne (List.eq_nil_of_length_eq_zero h)
    rw [if_neg h0, if_neg (by omega)]
    have hshort : (bs.length + 18446744073709551616 - sigSize) % 18446744073709551616
        = bs.length + 18446744073709551616 - sigSize := by
      omega
    rw [hshort]
    have hr : (bs.drop (bs.length + 18446744073709551616 - sigSize)).length = 0 := by
      simp only [List.length_drop]
      omega
    rw [if_neg (by omega)]

/-- C10 witness: the amended theorem at concrete inputs.  The dichotomy at
the benign input `[]` resolves to the terminating side, and the short
tail `[0xAA]` with `signature_size = 64` ends in the EOF error. -/
theorem parse_termination_dichotomy_witness :
    (parse_signature_stream_data .little ctxTriv [] ≠ .div
      ∨ ∀ fuel, parseSigStreamFuel fuel .little ctxTriv [] = .div) ∧
    blockLoop .little ctxTriv.verify none 65536 64 (0 + 1) [0xAA] 0 [] []
      = .err .eof :=
  ⟨parse_termination_dichotomy.1 .little ctxTriv [] (by decide),
    parse_termination_dichotomy.2 .little ctxTriv.verify none 65536 64 0 0 [0xAA] [] []
      (by decide) (by decide) (by decide)⟩

/-! ### C3: memory-stream-name gating in the header digests -/

/-- C3 (counterexample): the claim says the header digest computed by
`parse_signature_stream_data` includes the memory-stream-name bytes only
when `version ≥ 4`.  At version 3 with the flag set and a name supplied,
the parser's header-digest transcript DOES include the name bytes: the
transcript changes when the supplied name changes from `some "A"` to
`none`.  (The `v ≥ 4` gate lives in the writer, not the parser.) -/
theorem parse_header_hash_msn_counterexample :
    parseHeaderHashInput .little 3 65536 4 0 0 (some 1) (some 0) none
        (some [0x41]) none 64 [0x4B]
      ≠ parseHeaderHashInput .little 3 65536 4 0 0 (some 1) (some 0) none
        none none 64 [0x4B] := by
  decide

/-- C3 (amended): the `version ≥ 4` gate on the memory-stream-name bytes is
in the WRITE-side header digest, not the parser's.  (a) For versions 2 and
3 the writer's header digest is independent of the memory-stream name
(only its presence flag is hashed); (b) for version ≥ 4 the writer's
header digest contains the name bytes right after the flag; (c) the
parser's header digest contains the name bytes whenever the flag field
was read non-zero and a name was supplied, at EVERY version; (d) the
per-block digest contains the name bytes unconditionally whenever they
are available. -/
theorem header_hash_msn_gating :
    (∀ (e : Endian) (version salt : Nat) (m m2 : List Byte) (uid : Option (List Byte))
      (ss : Nat) (kn : List Byte), 2 ≤ version → version < 4 →
      writeHeaderHashInput e version salt (some m) uid ss kn
        = writeHeaderHashInput e version salt (some m2) uid ss kn) ∧
    (∀ (e : Endian) (version salt : Nat) (m : List Byte) (uid : Option (List Byte))
      (ss : Nat) (kn : List Byte), 4 ≤ version →
      writeHeaderHashInput e version salt (some m) uid ss kn
        = word32 e version ++ word32 e SIGNATURE_STREAM_BLOCK_SIZE
          ++ word32 e SIGNATURE_STREAM_HASH_METHOD_ID ++ word32 e 0 ++ word32 e salt
          ++ word32 e 1 ++ m
          ++ word32 e (if uid.isSome then 1 else 0) ++ uid.getD []
          ++ word32 e ss ++ kn) ∧
    (∀ (e : Endian) (version blockSize hashMethodId hashSize salt f : Nat)
      (hasUid : Option Nat) (sigRel : Option (List Byte)) (m : List Byte)
      (uid : Option (List Byte)) (ss : Nat) (kn : List Byte), f ≠ 0 →
      parseHeaderHashInput e version blockSize hashMethodId hashSize salt
          (some f) hasUid sigRel (some m) uid ss kn
        = word32 e version ++ word32 e blockSize ++ word32 e hashMethodId
          ++ word32 e hashSize ++ word32 e salt
          ++ word32 e f ++ m
          ++ (match hasUid with
              | none => []
              | some f2 => word32 e f2 ++ (if f2 ≠ 0 then uid.getD [] else []))
          ++ (match sigRel with
              | none => []
              | some sr => sr)
          ++ word32 e ss ++ kn) ∧
    (∀ (e : Endian) (salt i : Nat) (m : List Byte) (uidB : Option (List Byte))
      (blockData : List Byte),
      blockHashInput e salt i (some m) uidB blockData
        = word32 e (salt ^^^ ((i + 0xB1B) % 4294967296))
          ++ m ++ uidB.getD [] ++ blockData) := by
  refine ⟨?_, ?_, ?_, ?_⟩
  · intro e version salt m m2 uid ss kn h2 h4
    have h4' : ¬ 4 ≤ version := by omega
    simp [writeHeaderHashInput, h2, h4']
  · intro e version salt m uid ss kn h4
    have h2 : 2 ≤ version := by omega
    have h3 : 3 ≤ version := by omega
    simp [writeHeaderHashInput, h2, h3, h4, List.append_assoc]
  · intro e version blockSize hashMethodId hashSize salt f hasUid sigRel m uid ss kn hf
    simp [parseHeaderHashInput, hf, List.append_assoc]
  · intro e salt i m uidB blockData
    simp [blockHashInput, List.append_assoc]

/-- C3 witness: the amended theorem at concrete values — the writer's
version-3 digest ignores the name, its version-4 digest contains it, the
parser's version-3 digest contains it, and the block digest contains it. -/
theorem header_hash_msn_gating_witness :
    writeHeaderHashInput .little 3 7 (some [0x41]) none 64 [0x4B]
      = writeHeaderHashInput .little 3 7 (some [0x42]) none 64 [0x4B] ∧
    writeHeaderHashInput .little 4 7 (some [0x41]) none 64 [0x4B]
      = word32 .little 4 ++ word32 .little SIGNATURE_STREAM_BLOCK_SIZE
        ++ word32 .little SIGNATURE_STREAM_HASH_METHOD_ID ++ word32 .little 0
        ++ word32 .little 7 ++ word32 .little 1 ++ [0x41]
        ++ word32 .little 0 ++ [] ++ word32 .little 64 ++ [0x4B] ∧
    parseHeaderHashInput .little 3 65536 4 0 7 (some 1) (some 0) none
        (some [0x41]) none 64 [0x4B]
      = word32 .little 3 ++ word32 .little 65536 ++ word32 .little 4
        ++ word32 .little 0 ++ word32 .little 7 ++ word32 .little 1 ++ [0x41]
        ++ (word32 .little 0 ++ []) ++ [] ++ word32 .little 64 ++ [0x4B] ∧
    blockHashInput .little 7 0 (some [0x41]) none [0xAA]
      = word32 .little (7 ^^^ (0xB1B % 4294967296)) ++ [0x41] ++ [] ++ [0xAA] :=
  ⟨header_hash_msn_gating.1 .little 3 7 [0x41] [0x42] none 64 [0x4B]
      (by decide) (by decide),
    by
      rw [header_hash_msn_gating.2.1 .little 4 7 [0x41] none 64 [0x4B] (by decide)]
      decide,
    by
      rw [header_hash_msn_gating.2.2.1 .little 3 65536 4 0 7 1 (some 0) none [0x41]
        none 64 [0x4B] (by decide)]
      decide,
    by
      rw [header_hash_msn_gating.2.2.2 .little 7 0 [0x41] none [0xAA]]
      decide⟩

/-! ### CTSEMETA codec (src/ctsemeta.rs)

The magic byte literals and the special type names used by `read_type`. -/

/-- `b"CTSEMETA"`. -/
def ctseMagic : List Byte := [0x43, 0x54, 0x53, 0x45, 0x4D, 0x45, 0x54, 0x41]
/-- `b"MSGS"`. -/
def msgsMagic : List Byte := [0x4D, 0x53, 0x47, 0x53]
/-- `b"INFO"`. -/
def infoMagic : List Byte := [0x49, 0x4E, 0x46, 0x4F]
/-- `b"RFIL"`. -/
def rfilMagic : List Byte := [0x52, 0x46, 0x49, 0x4C]
/-- `b"IDNT"`. -/
def idntMagic : List Byte := [0x49, 0x44, 0x4E, 0x54]
/-- `b"EXTY"`. -/
def extyMagic : List Byte := [0x45, 0x58, 0x54, 0x59]
/-- `b"INTY"`. -/
def intyMagic : List Byte := [0x49, 0x4E, 0x54, 0x59]
/-- `b"DTTY"`. -/
def dttyMagic : List Byte := [0x44, 0x54, 0x54, 0x59]
/-- `b"ADIM"`. -/
def adimMagic : List Byte := [0x41, 0x44, 0x49, 0x4D]
/-- `b"STMB"`. -/
def stmbMagic : List Byte := [0x53, 0x54, 0x4D, 0x42]
/-- `b"EXOB"`. -/
def exobMagic : List Byte := [0x45, 0x58, 0x4F, 0x42]
/-- `b"OBTY"`. -/
def obtyMagic : List Byte := [0x4F, 0x42, 0x54, 0x59]
/-- `b"EDTY"`. -/
def edtyMagic : List Byte := [0x45, 0x44, 0x54, 0x59]
/-- `b"OBJS"`. -/
def objsMagic : List Byte := [0x4F, 0x42, 0x4A, 0x53]
/-- `b"EDOB"`. -/
def edobMagic : List Byte := [0x45, 0x44, 0x4F, 0x42]
/-- `b"SSAR"`. -/
def ssarMagic : List Byte := [0x53, 0x53, 0x41, 0x52]
/-- `b"DCON"`. -/
def dconMagic : List Byte := [0x44, 0x43, 0x4F, 0x4E]
/-- `b"METAEND "` (trailing space). -/
def metaendMagic : List Byte := [0x4D, 0x45, 0x54, 0x41, 0x45, 0x4E, 0x44, 0x20]
/-- The type name `CString`. -/
def cstringName : List Byte := [0x43, 0x53, 0x74, 0x72, 0x69, 0x6E, 0x67]
/-- The type name `IDENT`. -/
def identName : List Byte := [0x49, 0x44, 0x45, 0x4E, 0x54]
/-- The type name `UBYTE`. -/
def ubyteName : List Byte := [0x55, 0x42, 0x59, 0x54, 0x45]
/-- The type name `ULONG`. -/
def ulongName : List Byte := [0x55, 0x4C, 0x4F, 0x4E, 0x47]
/-- The type name `SLONG`. -/
def slongName : List Byte := [0x53, 0x4C, 0x4F, 0x4E, 0x47]
/-- The type name `UQUAD`. -/
def uquadName : List Byte := [0x55, 0x51, 0x55, 0x41, 0x44]
/-- The type name `SQUAD`. -/
def squadName : List Byte := [0x53, 0x51, 0x55, 0x41, 0x44]
/-- The type name `FLOAT`. -/
def floatName : List Byte := [0x46, 0x4C, 0x4F, 0x41, 0x54]
/-- The struct name `CSyncedSLONG`. -/
def csyncedSlongName : List Byte :=
  [0x43, 0x53, 0x79, 0x6E, 0x63, 0x65, 0x64, 0x53, 0x4C, 0x4F, 0x4E, 0x47]

/-- A `{ID, Type}` struct member reference (field `Type` is `Ty` here since
`Type` is a Lean keyword). -/
structure DataTypeTypeStructMember where
  ID : Nat
  Ty : Nat
deriving DecidableEq

/-- The tagged `DataTypeType` enum.  `Struct.Base` is an i32 stored as its
u32 bit pattern: `-1` is `4294967295`, and the source's `*Base as u32`
cast is the identity on the bits. -/
inductive DataTypeType where
  | Primitive (Bytes LBE : Nat)
  | Enum (Bytes : Nat)
  | Pointer (To : Nat)
  | Array (Of rows cols : Nat)
  | Struct (Base : Nat) (members : List DataTypeTypeStructMember)
  | StaticStackArray (Of : Nat)
  | DynamicContainer (Of : Nat)
  | TypeDef (For : Nat)
deriving DecidableEq

/-- An internal type definition (`DTTY` entry); the name is kept as bytes.
The field `Type` of the source is `Ty` here. -/
structure DataType where
  DataType : Nat
  Name : List Byte
  Format : Nat
  Ty : DataTypeType
deriving DecidableEq

/-- `Metadata`: version plus the optional version string (v ≥ 2). -/
structure Metadata where
  version : Nat
  version_string : Option (List Byte)
deriving DecidableEq

/-- An `IDNT` entry. -/
structure Ident where
  Ident : Nat
  Name : List Byte
deriving DecidableEq

/-- An `EXTY` entry (field `Type` of the source is `Ty`). -/
structure ExternalType where
  Ty : Nat
  Name : List Byte
deriving DecidableEq

/-- An `OBTY` entry (field `Type` of the source is `Ty`). -/
structure InternalObjectType where
  Object : Nat
  Ty : Nat
deriving DecidableEq

/-- `InternalObjectDataValue`: the typed value tree.  Fixed-width integers
(`Pointer`, `SLONG`, `SQUAD`, `SLONGEnum`, `CSyncedSLONG`, `FLOAT`, …) are
stored as their unsigned bit patterns; the codec moves them byte-for-byte
(binrw performs no arithmetic on them, and `f32` survives bit-exactly). -/
inductive InternalObjectDataValue where
  | Pointer (bits : Nat)
  | CString (s : List Byte)
  | IDENT (v : Nat)
  | UBYTE (v : Nat)
  | ULONG (v : Nat)
  | SLONG (bits : Nat)
  | UQUAD (v : Nat)
  | SQUAD (bits : Nat)
  | FLOAT (bits : Nat)
  | Primitive (bytes : List Byte)
  | SLONGEnum (bits : Nat)
  | Enum (bytes : List Byte)
  | Array (vs : List InternalObjectDataValue)
  | Struct (Base : Option InternalObjectDataValue)
      (members : List InternalObjectDataValue)
  | CSyncedSLONG (bits : Nat)
  | StaticStackArray (vs : List InternalObjectDataValue)
  | DynamicContainer (ptrs : List Nat)

/-- An `OBJS` entry (field `Type` of the source is `Ty`). -/
structure InternalObject where
  Object : Nat
  Ty : Nat
  value : InternalObjectDataValue

/-- The `INFO` section counts, in field order. -/
structure Info where
  EditDataStripped : Nat
  ResourceFiles : Nat
  Idents : Nat
  Types : Nat
  Objects : Nat
deriving DecidableEq

/-- `Info::new`: the counts synthesized on write (the wrapper structs of
the source are flattened to their single vector field here). -/
def Info.new (resource_files : List Unit) (idents : List Ident)
    (external_types : List ExternalType) (internal_types : List DataType)
    (external_objects : List Unit) (internal_objects : List InternalObject) : Info :=
  { EditDataStripped := 1
    ResourceFiles := resource_files.length
    Idents := idents.length
    Types := external_types.length + internal_types.length
    Objects := external_objects.length + internal_objects.length }

/-- `CTSEMeta`: the full record; the `_info` and `_metaend` temporaries of
the source are not stored (INFO is derived on write, discarded on read). -/
structure CTSEMeta where
  metadata : Metadata
  messages : List Unit
  resource_files : List Unit
  idents : List Ident
  external_types : List ExternalType
  internal_types : List DataType
  external_objects : List Unit
  internal_object_types : List InternalObjectType
  edit_object_types : List Unit
  internal_objects : List InternalObject
  edit_objects : List Unit

/-- `Metadata` reader: magic, endianness cookie `0x1234ABCD`, version, and
the version string when `version >= 2`. -/
def readMetadata (e : Endian) : Parser Metadata :=
  pbind (readExact ctseMagic) fun _ =>
  pbind (readU32 e) fun c =>
  if c = 0x1234ABCD then
    pbind (readU32 e) fun version =>
    pbind (if 2 ≤ version then pbind (parse_pascal_string e) fun s => ppure (some s)
      else ppure none) fun vs =>
    ppure ⟨version, vs⟩
  else pfail .badMagic

/-- `Metadata` writer (the `unwrap_or_default` of
`write_option_pascal_string` appears as `getD []`). -/
def writeMetadata (e : Endian) (md : Metadata) : List Byte :=
  ctseMagic ++ word32 e 0x1234ABCD ++ word32 e md.version
    ++ (if 2 ≤ md.version then write_pascal_string e (md.version_string.getD []) else [])

/-- Reader of a magic-tagged `Vec<()>` section asserted empty (`MSGS`,
`RFIL`, `EXOB`, `EDTY`, `EDOB`): unit elements consume no bytes, and the
binrw `assert(..is_empty())` fails unless the count is zero. -/
def readEmptyVec (e : Endian) (magic : List Byte) : Parser (List Unit) :=
  pbind (readExact magic) fun _ =>
  pbind (readU32 e) fun n =>
  if n = 0 then ppure (List.replicate n ()) else pfail .badAssert

/-- Writer of a magic-tagged `Vec<()>` section (unit elements write no
bytes). -/
def writeEmptyVec (e : Endian) (magic : List Byte) (l : List Unit) : List Byte :=
  magic ++ word32 e l.length

/-- `Ident` entry reader. -/
def readIdent (e : Endian) : Parser Ident :=
  pbind (readU32 e) fun i =>
  pbind (parse_pascal_string e) fun nm =>
  ppure ⟨i, nm⟩

/-- `Ident` entry writer. -/
def writeIdent (e : Endian) (x : Ident) : List Byte :=
  word32 e x.Ident ++ write_pascal_string e x.Name

/-- `IDNT` section reader. -/
def readIdents (e : Endian) : Parser (List Ident) :=
  pbind (readExact idntMagic) fun _ => parse_pascal_vec e (readIdent e)

/-- `IDNT` section writer. -/
def writeIdents (e : Endian) (l : List Ident) : List Byte :=
  idntMagic ++ write_pascal_vec e (writeIdent e) l

/-- `ExternalType` entry reader. -/
def readExternalType (e : Endian) : Parser ExternalType :=
  pbind (readU32 e) fun t =>
  pbind (parse_pascal_string e) fun nm =>
  ppure ⟨t, nm⟩

/-- `ExternalType` entry writer. -/
def writeExternalType (e : Endian) (x : ExternalType) : List Byte :=
  word32 e x.Ty ++ write_pascal_string e x.Name

/-- `EXTY` section reader. -/
def readExternalTypes (e : Endian) : Parser (List ExternalType) :=
  pbind (readExact extyMagic) fun _ => parse_pascal_vec e (readExternalType e)

/-- `EXTY` section writer. -/
def writeExternalTypes (e : Endian) (l : List ExternalType) : List Byte :=
  extyMagic ++ write_pascal_vec e (writeExternalType e) l

/-- `{ID, Type}` member reader. -/
def readStructMember (e : Endian) : Parser DataTypeTypeStructMember :=
  pbind (readU32 e) fun i =>
  pbind (readU32 e) fun t =>
  ppure ⟨i, t⟩

/-- `{ID, Type}` member writer. -/
def writeStructMember (e : Endian) (m : DataTypeTypeStructMember) : List Byte :=
  word32 e m.ID ++ word32 e m.Ty

/-- `DataTypeType` reader: a u32 tag dispatched over the binrw enum magics
{0, 1, 2, 4, 5, 7, 8, 13}; an unmatched tag is a fatal error; the `ADIM`
rows field is asserted to be 1. -/
def readDataTypeType (e : Endian) : Parser DataTypeType :=
  pbind (readU32 e) fun tag =>
  if tag = 0 then
    pbind (readU32 e) fun b => pbind (readU32 e) fun l => ppure (.Primitive b l)
  else if tag = 1 then
    pbind (readU32 e) fun b => ppure (.Enum b)
  else if tag = 2 then
    pbind (readU32 e) fun t => ppure (.Pointer t)
  else if tag = 4 then
    pbind (readU32 e) fun o =>
    pbind (readExact adimMagic) fun _ =>
    pbind (readU32 e) fun rows =>
    if rows = 1 then
      pbind (readU32 e) fun cols => ppure (.Array o rows cols)
    else pfail .badAssert
  else if tag = 5 then
    pbind (readU32 e) fun base =>
    pbind (readExact stmbMagic) fun _ =>
    pbind (parse_pascal_vec e (readStructMember e)) fun ms =>
    ppure (.Struct base ms)
  else if tag = 7 then
    pbind (readU32 e) fun o => ppure (.StaticStackArray o)
  else if tag = 8 then
    pbind (readU32 e) fun o => ppure (.DynamicContainer o)
  else if tag = 13 then
    pbind (readU32 e) fun f => ppure (.TypeDef f)
  else pfail .unknownTag

/-- `DataTypeType` writer. -/
def writeDataTypeType (e : Endian) : DataTypeType → List Byte
  | .Primitive b l => word32 e 0 ++ word32 e b ++ word32 e l
  | .Enum b => word32 e 1 ++ word32 e b
  | .Pointer t => word32 e 2 ++ word32 e t
  | .Array o rows cols => word32 e 4 ++ word32 e o ++ adimMagic ++ word32 e rows ++ word32 e cols
  | .Struct base ms =>
    word32 e 5 ++ word32 e base ++ stmbMagic
      ++ write_pascal_vec e (writeStructMember e) ms
  | .StaticStackArray o => word32 e 7 ++ word32 e o
  | .DynamicContainer o => word32 e 8 ++ word32 e o
  | .TypeDef f => word32 e 13 ++ word32 e f

/-- `DataType` (`DTTY`) entry reader. -/
def readDataType (e : Endian) : Parser DataType :=
  pbind (readExact dttyMagic) fun _ =>
  pbind (readU32 e) fun i =>
  pbind (parse_pascal_string e) fun nm =>
  pbind (readU32 e) fun fmt =>
  pbind (readDataTypeType e) fun ty =>
  ppure ⟨i, nm, fmt, ty⟩

/-- `DataType` entry writer. -/
def writeDataType (e : Endian) (dt : DataType) : List Byte :=
  dttyMagic ++ word32 e dt.DataType ++ write_pascal_string e dt.Name
    ++ word32 e dt.Format ++ writeDataTypeType e dt.Ty

/-- `INTY` section reader. -/
def readInternalTypes (e : Endian) : Parser (List DataType) :=
  pbind (readExact intyMagic) fun _ => parse_pascal_vec e (readDataType e)

/-- `INTY` section writer. -/
def writeInternalTypes (e : Endian) (l : List DataType) : List Byte :=
  intyMagic ++ write_pascal_vec e (writeDataType e) l

/-- `InternalObjectType` entry reader. -/
def readInternalObjectType (e : Endian) : Parser InternalObjectType :=
  pbind (readU32 e) fun ob =>
  pbind (readU32 e) fun t =>
  ppure ⟨ob, t⟩

/-- `InternalObjectType` entry writer. -/
def writeInternalObjectType (e : Endian) (x : InternalObjectType) : List Byte :=
  word32 e x.Object ++ word32 e x.Ty

/-- `OBTY` section reader. -/
def readInternalObjectTypes (e : Endian) : Parser (List InternalObjectType) :=
  pbind (readExact obtyMagic) fun _ => parse_pascal_vec e (readInternalObjectType e)

/-- `OBTY` section writer. -/
def writeInternalObjectTypes (e : Endian) (l : List InternalObjectType) : List Byte :=
  obtyMagic ++ write_pascal_vec e (writeInternalObjectType e) l

/-- `INFO` section reader: the magic and the five counts, in field order. -/
def readInfo (e : Endian) : Parser Info :=
  pbind (readExact infoMagic) fun _ =>
  pbind (readU32 e) fun a =>
  pbind (readU32 e) fun b =>
  pbind (readU32 e) fun c =>
  pbind (readU32 e) fun d =>
  pbind (readU32 e) fun f =>
  ppure ⟨a, b, c, d, f⟩

/-- `INFO` section writer. -/
def writeInfo (e : Endian) (i : Info) : List Byte :=
  infoMagic ++ word32 e i.EditDataStripped ++ word32 e i.ResourceFiles
    ++ word32 e i.Idents ++ word32 e i.Types ++ word32 e i.Objects

/-- The type-table index built by `InternalObject::read_options`
(`HashMap` collected from the `INTY` entries keyed by id: a later entry
with the same id overrides an earlier one, hence the reverse search). -/
def lookupType (internal_types : List DataType) (tid : Nat) : Option DataType :=
  internal_types.reverse.find? (fun t => t.DataType == tid)

/-- `read_type` (the type-directed value decoder of
`InternalObject::read_options`), with fuel bounding the type-nesting
depth (the Rust recursion can overflow on cyclic type tables; `.div`
models that).  Looking up a type id absent from the `INTY` index — an
external type id — is the fatal "Tried to read external type" error.
Pointer targets and dynamic-container element types are never looked
up. -/
def read_type (e : Endian) (internal_types : List DataType) :
    Nat → Nat → Parser InternalObjectDataValue
  | 0, _ => fun _ => .div
  | fuel + 1, tid => fun bs =>
    match lookupType internal_types tid with
    | none => .err .externalType
    | some dt =>
      match dt.Ty with
      | .Primitive Bytes _LBE =>
        if dt.Name = cstringName then
          (pbind (parse_pascal_string e) fun s => ppure (.CString s)) bs
        else if dt.Name = identName then
          (pbind (readU32 e) fun v => ppure (.IDENT v)) bs
        else if dt.Name = ubyteName then
          (pbind readByte fun v => ppure (.UBYTE v)) bs
        else if dt.Name = ulongName then
          (pbind (readU32 e) fun v => ppure (.ULONG v)) bs
        else if dt.Name = slongName then
          (pbind (readU32 e) fun v => ppure (.SLONG v)) bs
        else if dt.Name = uquadName then
          (pbind (readU64 e) fun v => ppure (.UQUAD v)) bs
        else if dt.Name = squadName then
          (pbind (readU64 e) fun v => ppure (.SQUAD v)) bs
        else if dt.Name = floatName then
          (pbind (readU32 e) fun v => ppure (.FLOAT v)) bs
        else
          (pbind (readByteList Bytes) fun l => ppure (.Primitive l)) bs
      | .Enum Bytes =>
        if Bytes = 4 then
          (pbind (readU32 e) fun v => ppure (.SLONGEnum v)) bs
        else
          (pbind (readByteList Bytes) fun l => ppure (.Enum l)) bs
      | .Pointer _To =>
        (pbind (readU32 e) fun v => ppure (.Pointer v)) bs
      | .Array Of _rows cols =>
        (pbind (readN (read_type e internal_types fuel Of) cols) fun vs =>
          ppure (.Array vs)) bs
      | .Struct Base members =>
        if dt.Name = csyncedSlongName ∧ members = [] then
          (pbind (readU32 e) fun v => ppure (.CSyncedSLONG v)) bs
        else
          (pbind (if Base ≠ 4294967295 then
              pbind (read_type e internal_types fuel Base) fun b => ppure (some b)
            else ppure none) fun b =>
           pbind (readSeq (fun m => read_type e internal_types fuel m.Ty) members) fun ms =>
           ppure (.Struct b ms)) bs
      | .StaticStackArray Of =>
        (pbind (readExact ssarMagic) fun _ =>
         pbind (readU32 e) fun n =>
         pbind (readN (read_type e internal_types fuel Of) n) fun vs =>
         ppure (.StaticStackArray vs)) bs
      | .DynamicContainer _Of =>
        (pbind (readExact dconMagic) fun _ =>
         pbind (readU32 e) fun n =>
         pbind (readN (readU32 e) n) fun ps =>
         ppure (.DynamicContainer ps)) bs
      | .TypeDef For => read_type e internal_types fuel For bs

mutual

/-- `write_value` of `InternalObject::write_options`: renders a value by
its own shape (the type table is not consulted on write). -/
def writeValue (e : Endian) : InternalObjectDataValue → List Byte
  | .Pointer bits => word32 e bits
  | .CString s => write_pascal_string e s
  | .IDENT v => word32 e v
  | .UBYTE v => [byte v]
  | .ULONG v => word32 e v
  | .SLONG bits => word32 e bits
  | .UQUAD v => word64 e v
  | .SQUAD bits => word64 e bits
  | .FLOAT bits => word32 e bits
  | .Primitive bytesL => bytesL
  | .SLONGEnum bits => word32 e bits
  | .Enum bytesL => bytesL
  | .Array vs => writeValues e vs
  | .Struct b ms =>
    (match b with
     | some v => writeValue e v
     | none => []) ++ writeValues e ms
  | .CSyncedSLONG bits => word32 e bits
  | .StaticStackArray vs => ssarMagic ++ word32 e vs.length ++ writeValues e vs
  | .DynamicContainer ps => dconMagic ++ word32 e ps.length ++ writeSeq (word32 e) ps

/-- Concatenated rendering of a value list (array elements, struct
members). -/
def writeValues (e : Endian) : List InternalObjectDataValue → List Byte
  | [] => []
  | v :: vs => writeValue e v ++ writeValues e vs

end

/-- `InternalObject::read_options`: object id, type id, then the value
decoded by `read_type` at the object's own type. -/
def readInternalObject (e : Endian) (internal_types : List DataType) (fuel : Nat) :
    Parser InternalObject :=
  pbind (readU32 e) fun ob =>
  pbind (readU32 e) fun ty =>
  pbind (read_type e internal_types fuel ty) fun v =>
  ppure ⟨ob, ty, v⟩

/-- `InternalObject::write_options`. -/
def writeInternalObject (e : Endian) (ob : InternalObject) : List Byte :=
  word32 e ob.Object ++ word32 e ob.Ty ++ writeValue e ob.value

/-- `OBJS` section reader (parameterised by the already-parsed `INTY`
table, the sibling-section dependency of the source). -/
def readInternalObjects (e : Endian) (internal_types : List DataType) (fuel : Nat) :
    Parser (List InternalObject) :=
  pbind (readExact objsMagic) fun _ =>
  parse_pascal_vec e (readInternalObject e internal_types fuel)

/-- `OBJS` section writer. -/
def writeInternalObjects (e : Endian) (l : List InternalObject) : List Byte :=
  objsMagic ++ write_pascal_vec e (writeInternalObject e) l

/-- The sections of the `CTSEMeta` reader after the discarded `INFO`
section (a factoring of `readCTSEMeta` that makes the discarding of the
`INFO` value explicit: the continuation does not depend on it). -/
def readCTSEMetaTail (e : Endian) (fuel : Nat) (md : Metadata) (msgs : List Unit) :
    Parser CTSEMeta :=
  pbind (readEmptyVec e rfilMagic) fun rfil =>
  pbind (readIdents e) fun idents =>
  pbind (readExternalTypes e) fun exty =>
  pbind (readInternalTypes e) fun inty =>
  pbind (readEmptyVec e exobMagic) fun exob =>
  pbind (readInternalObjectTypes e) fun obty =>
  pbind (readEmptyVec e edtyMagic) fun edty =>
  pbind (readInternalObjects e inty fuel) fun objs =>
  pbind (readEmptyVec e edobMagic) fun edob =>
  pbind (readExact metaendMagic) fun _ =>
  ppure ⟨md, msgs, rfil, idents, exty, inty, exob, obty, edty, objs, edob⟩

/-- `CTSEMeta` reader: the thirteen sections in order; `INFO` is consumed
and its value discarded; `OBJS` is decoded against the `INTY` table.  The
fuel bounds only the value decoder's type-nesting depth. -/
def readCTSEMeta (e : Endian) (fuel : Nat) : Parser CTSEMeta :=
  pbind (readMetadata e) fun md =>
  pbind (readEmptyVec e msgsMagic) fun msgs =>
  pbind (readInfo e) fun _info =>
  readCTSEMetaTail e fuel md msgs

/-- `CTSEMeta` writer with an explicit `INFO` record (the source always
synthesizes it; this generalization expresses "B equals the write of its
parse up to the INFO section"). -/
def writeCTSEMetaWithInfo (e : Endian) (m : CTSEMeta) (iv : Info) : List Byte :=
  writeMetadata e m.metadata
  ++ writeEmptyVec e msgsMagic m.messages
  ++ writeInfo e iv
  ++ writeEmptyVec e rfilMagic m.resource_files
  ++ writeIdents e m.idents
  ++ writeExternalTypes e m.external_types
  ++ writeInternalTypes e m.internal_types
  ++ writeEmptyVec e exobMagic m.external_objects
  ++ writeInternalObjectTypes e m.internal_object_types
  ++ writeEmptyVec e edtyMagic m.edit_object_types
  ++ writeInternalObjects e m.internal_objects
  ++ writeEmptyVec e edobMagic m.edit_objects
  ++ metaendMagic

/-- `CTSEMeta` writer: the `INFO` section is synthesized by `Info.new`
from the final counts (`#[bw(calc = Info::new(..))]`). -/
def writeCTSEMeta (e : Endian) (m : CTSEMeta) : List Byte :=
  writeCTSEMetaWithInfo e m
    (Info.new m.resource_files m.idents m.external_types m.internal_types
      m.external_objects m.internal_objects)

/-! ### C8: value decoding and unresolved type ids -/

/-- C8 (counterexample): the claim says decoding fails whenever ANY
referenced type id (including a container element type) does not resolve
in `INTY`.  A `DynamicContainer` whose element type id 999 is absent from
the table decodes successfully: the decoder never looks element types of
dynamic containers up (it reads raw u32 object references). -/
theorem read_type_dynamic_container_counterexample :
    lookupType [⟨1, [0x78], 0, .DynamicContainer 999⟩] 999 = none ∧
    read_type .little [⟨1, [0x78], 0, .DynamicContainer 999⟩] 2 1
        (dconMagic ++ word32 .little 0)
      = .ok (.DynamicContainer [], []) := by
  exact ⟨rfl, rfl⟩

/-- C8 (amended): decoding fails with the external-type error exactly when
`read_type` is invoked on a type id with no `INTY` entry; this happens for
the object's own type, array elements, static-stack-array elements, struct
bases (≠ −1) and members, and typedef targets, but never for pointer
targets or dynamic-container element types, which are not decoded. -/
theorem read_type_unresolved_error (e : Endian) (internal_types : List DataType)
    (fuel tid : Nat) (bs : List Byte)
    (h : lookupType internal_types tid = none) :
    read_type e internal_types (fuel + 1) tid bs = .err .externalType := by
  simp only [read_type, h]

/-- C8 witness: the amended theorem at the empty type table. -/
theorem read_type_unresolved_error_witness :
    lookupType [] 0 = none ∧
    read_type .little [] (0 + 1) 0 [] = .err .externalType :=
  ⟨rfl, read_type_unresolved_error .little [] 0 0 [] rfl⟩

/-! ### C7: the INFO section is derived on write and discarded on read -/

theorem readEmptyVec_append (e : Endian) (magic rest : List Byte) :
    readEmptyVec e magic (writeEmptyVec e magic ([] : List Unit) ++ rest)
      = .ok (([] : List Unit), rest) := by
  show pbind (readExact magic) _ ((magic ++ word32 e (0 : Nat)) ++ rest) = _
  rw [List.append_assoc]
  refine run_step (readExact_append _ _) ?_
  refine run_step (readU32_word32_lt (by decide) _) ?_
  rfl

theorem readInfo_append (e : Endian) (iv : Info) (rest : List Byte) :
    readInfo e (writeInfo e iv ++ rest)
      = .ok (⟨iv.EditDataStripped % 4294967296, iv.ResourceFiles % 4294967296,
          iv.Idents % 4294967296, iv.Types % 4294967296, iv.Objects % 4294967296⟩, rest) := by
  show pbind (readExact infoMagic) _ _ = _
  have hshape : writeInfo e iv ++ rest
      = infoMagic ++ (word32 e iv.EditDataStripped ++ (word32 e iv.ResourceFiles
        ++ (word32 e iv.Idents ++ (word32 e iv.Types ++ (word32 e iv.Objects ++ rest))))) := by
    simp only [writeInfo, List.append_assoc]
  rw [hshape]
  refine run_step (readExact_append _ _) ?_
  refine run_step (readU32_word32 e _ _) ?_
  refine run_step (readU32_word32 e _ _) ?_
  refine run_step (readU32_word32 e _ _) ?_
  refine run_step (readU32_word32 e _ _) ?_
  refine run_step (readU32_word32 e _ _) ?_
  rfl

theorem readMetadata_append_v1 (e : Endian) (rest : List Byte) :
    readMetadata e (writeMetadata e ⟨1, none⟩ ++ rest) = .ok (⟨1, none⟩, rest) := by
  show pbind (readExact ctseMagic) _ _ = _
  have hshape : writeMetadata e ⟨1, none⟩ ++ rest
      = ctseMagic ++ (word32 e 0x1234ABCD ++ (word32 e 1 ++ rest)) := by
    simp [writeMetadata, List.append_assoc]
  rw [hshape]
  refine run_step (readExact_append _ _) ?_
  refine run_step (readU32_word32_lt (by decide) _) ?_
  rw [if_pos rfl]
  refine run_step (readU32_word32_lt (by decide) _) ?_
  have h2 : ¬ (2 ≤ (1 : Nat)) := by decide
  rw [if_neg h2]
  rfl

/-- C7: the `INFO` section.  (a) `Info.new` synthesizes on write exactly
the claimed counts: `EditDataStripped = 1`, `ResourceFiles`, `Idents`, the
number of external plus internal types, and the number of external plus
internal objects; (b) the writer emits that synthesized section between
`MSGS` and `RFIL`; (c) the reader consumes a written `INFO` section
entirely, whatever its five values; (d) the reader discards the values:
parsing streams that differ only in the `INFO` payload yields identical
results. -/
theorem info_derivation_and_discard :
    (∀ (resource_files : List Unit) (idents : List Ident)
      (external_types : List ExternalType) (internal_types : List DataType)
      (external_objects : List Unit) (internal_objects : List InternalObject),
      Info.new resource_files idents external_types internal_types external_objects
          internal_objects
        = ⟨1, resource_files.length, idents.length,
            external_types.length + internal_types.length,
            external_objects.length + internal_objects.length⟩) ∧
    (∀ (e : Endian) (m : CTSEMeta),
      writeCTSEMeta e m
        = writeMetadata e m.metadata
          ++ writeEmptyVec e msgsMagic m.messages
          ++ writeInfo e (Info.new m.resource_files m.idents m.external_types
              m.internal_types m.external_objects m.internal_objects)
          ++ writeEmptyVec e rfilMagic m.resource_files
          ++ writeIdents e m.idents
          ++ writeExternalTypes e m.external_types
          ++ writeInternalTypes e m.internal_types
          ++ writeEmptyVec e exobMagic m.external_objects
          ++ writeInternalObjectTypes e m.internal_object_types
          ++ writeEmptyVec e edtyMagic m.edit_object_types
          ++ writeInternalObjects e m.internal_objects
          ++ writeEmptyVec e edobMagic m.edit_objects
          ++ metaendMagic) ∧
    (∀ (e : Endian) (iv : Info) (rest : List Byte),
      ∃ x, readInfo e (writeInfo e iv ++ rest) = .ok (x, rest)) ∧
    (∀ (e : Endian) (fuel : Nat) (iv iv2 : Info) (post : List Byte),
      readCTSEMeta e fuel (writeMetadata e ⟨1, none⟩
          ++ (writeEmptyVec e msgsMagic [] ++ (writeInfo e iv ++ post)))
        = readCTSEMeta e fuel (writeMetadata e ⟨1, none⟩
          ++ (writeEmptyVec e msgsMagic [] ++ (writeInfo e iv2 ++ post)))) := by
  refine ⟨fun _ _ _ _ _ _ => rfl, fun _ _ => rfl, ?_, ?_⟩
  · intro e iv rest
    exact ⟨_, readInfo_append e iv rest⟩
  · intro e fuel iv iv2 post
    have hrun : ∀ iv3 : Info,
        readCTSEMeta e fuel (writeMetadata e ⟨1, none⟩
          ++ (writeEmptyVec e msgsMagic [] ++ (writeInfo e iv3 ++ post)))
        = readCTSEMetaTail e fuel ⟨1, none⟩ [] post := by
      intro iv3
      show pbind (readMetadata e) _ _ = _
      refine run_step (readMetadata_append_v1 e _) ?_
      refine run_step (readEmptyVec_append e msgsMagic _) ?_
      refine run_step (readInfo_append e iv3 post) ?_
      rfl
    rw [hrun iv, hrun iv2]

/-! ### C2: read/write inversion for the CTSEMETA codec -/

theorem parse_pascal_vec_inv {α : Type} {e : Endian} {p : Parser α} {w : α → List Byte}
    (hinv : ∀ bs a rest, p bs = .ok (a, rest) → bs = w a ++ rest)
    {bs : List Byte} {l : List α} {rest : List Byte}
    (h : parse_pascal_vec e p bs = .ok (l, rest)) :
    bs = write_pascal_vec e w l ++ rest := by
  simp only [parse_pascal_vec, pbind_ok] at h
  obtain ⟨n, rest1, hn, hl⟩ := h
  obtain ⟨hbs, _⟩ := readU32_inv hn
  obtain ⟨hbs1, hlen⟩ := readN_inv hinv n rest1 l rest hl
  subst hlen
  rw [hbs, hbs1, write_pascal_vec, List.append_assoc]

theorem writeValues_eq_writeSeq (e : Endian) (vs : List InternalObjectDataValue) :
    writeValues e vs = writeSeq (writeValue e) vs := by
  induction vs with
  | nil => rfl
  | cons v vs ih => rw [writeValues, writeSeq, ih]

theorem readMetadata_inv {e : Endian} {bs : List Byte} {md : Metadata} {rest : List Byte}
    (h : readMetadata e bs = .ok (md, rest)) :
    bs = writeMetadata e md ++ rest := by
  simp only [readMetadata, pbind_ok] at h
  obtain ⟨u, r0, h0, c, r1, h1, h2⟩ := h
  split at h2
  · rename_i hc
    subst hc
    simp only [pbind_ok, ppure, PResult.ok.injEq, Prod.mk.injEq] at h2
    obtain ⟨version, r2, hv, vs, r3, hvs, hmd, hr3⟩ := h2
    subst hmd; subst hr3
    obtain ⟨hbs1, _⟩ := readU32_inv h1
    obtain ⟨hbs2, _⟩ := readU32_inv hv
    split at hvs
    · rename_i h2le
      simp only [pbind_ok, ppure, PResult.ok.injEq, Prod.mk.injEq] at hvs
      obtain ⟨s, r4, hs, hvseq, hr4⟩ := hvs
      subst hvseq; subst hr4
      obtain ⟨hbs3, _⟩ := parse_pascal_string_inv hs
      rw [readExact_inv h0, hbs1, hbs2, hbs3, writeMetadata]
      simp only [Option.getD_some, if_pos h2le, List.append_assoc]
    · rename_i h2le
      simp only [ppure, PResult.ok.injEq, Prod.mk.injEq] at hvs
      obtain ⟨hvseq, hr2⟩ := hvs
      subst hvseq; subst hr2
      rw [readExact_inv h0, hbs1, hbs2, writeMetadata]
      simp only [if_neg h2le, List.append_assoc, List.append_nil]
  · exact absurd h2 (by simp [pfail])

theorem readEmptyVec_inv {e : Endian} {magic bs : List Byte} {l : List Unit}
    {rest : List Byte} (h : readEmptyVec e magic bs = .ok (l, rest)) :
    bs = writeEmptyVec e magic l ++ rest := by
  simp only [readEmptyVec, pbind_ok] at h
  obtain ⟨u, r0, h0, n, r1, h1, h2⟩ := h
  split at h2
  · rename_i hn0
    simp only [ppure, PResult.ok.injEq, Prod.mk.injEq] at h2
    obtain ⟨hl, hr⟩ := h2
    subst hl; subst hr
    obtain ⟨hbs1, _⟩ := readU32_inv h1
    rw [readExact_inv h0, hbs1, writeEmptyVec]
    simp only [List.length_replicate, List.append_assoc]
  · exact absurd h2 (by simp [pfail])

theorem readIdent_inv {e : Endian} {bs : List Byte} {x : Ident} {rest : List Byte}
    (h : readIdent e bs = .ok (x, rest)) : bs = writeIdent e x ++ rest := by
  simp only [readIdent, pbind_ok, ppure, PResult.ok.injEq, Prod.mk.injEq] at h
  obtain ⟨i, r0, hi, nm, r1, hnm, hx, hr⟩ := h
  subst hx; subst hr
  obtain ⟨hbs0, _⟩ := readU32_inv hi
  obtain ⟨hbs1, _⟩ := parse_pascal_string_inv hnm
  rw [hbs0, hbs1, writeIdent, List.append_assoc]

theorem readIdents_inv {e : Endian} {bs : List Byte} {l : List Ident} {rest : List Byte}
    (h : readIdents e bs = .ok (l, rest)) : bs = writeIdents e l ++ rest := by
  simp only [readIdents, pbind_ok] at h
  obtain ⟨u, r0, h0, h1⟩ := h
  rw [readExact_inv h0,
    parse_pascal_vec_inv (fun _ _ _ hh => readIdent_inv hh) h1,
    writeIdents, List.append_assoc]

theorem readExternalType_inv {e : Endian} {bs : List Byte} {x : ExternalType}
    {rest : List Byte} (h : readExternalType e bs = .ok (x, rest)) :
    bs = writeExternalType e x ++ rest := by
  simp only [readExternalType, pbind_ok, ppure, PResult.ok.injEq, Prod.mk.injEq] at h
  obtain ⟨t, r0, ht, nm, r1, hnm, hx, hr⟩ := h
  subst hx; subst hr
  obtain ⟨hbs0, _⟩ := readU32_inv ht
  obtain ⟨hbs1, _⟩ := parse_pascal_string_inv hnm
  rw [hbs0, hbs1, writeExternalType, List.append_assoc]

theorem readExternalTypes_inv {e : Endian} {bs : List Byte} {l : List ExternalType}
    {rest : List Byte} (h : readExternalTypes e bs = .ok (l, rest)) :
    bs = writeExternalTypes e l ++ rest := by
  simp only [readExternalTypes, pbind_ok] at h
  obtain ⟨u, r0, h0, h1⟩ := h
  rw [readExact_inv h0,
    parse_pascal_vec_inv (fun _ _ _ hh => readExternalType_inv hh) h1,
    writeExternalTypes, List.append_assoc]

theorem readStructMember_inv {e : Endian} {bs : List Byte}
    {m : DataTypeTypeStructMember} {rest : List Byte}
    (h : readStructMember e bs = .ok (m, rest)) :
    bs = writeStructMember e m ++ rest := by
  simp only [readStructMember, pbind_ok, ppure, PResult.ok.injEq, Prod.mk.injEq] at h
  obtain ⟨i, r0, hi, t, r1, ht, hm, hr⟩ := h
  subst hm; subst hr
  obtain ⟨hbs0, _⟩ := readU32_inv hi
  obtain ⟨hbs1, _⟩ := readU32_inv ht
  rw [hbs0, hbs1, writeStructMember, List.append_assoc]

theorem readInternalObjectType_inv {e : Endian} {bs : List Byte}
    {x : InternalObjectType} {rest : List Byte}
    (h : readInternalObjectType e bs = .ok (x, rest)) :
    bs = writeInternalObjectType e x ++ rest := by
  simp only [readInternalObjectType, pbind_ok, ppure, PResult.ok.injEq,
    Prod.mk.injEq] at h
  obtain ⟨ob, r0, hob, t, r1, ht, hx, hr⟩ := h
  subst hx; subst hr
  obtain ⟨hbs0, _⟩ := readU32_inv hob
  obtain ⟨hbs1, _⟩ := readU32_inv ht
  rw [hbs0, hbs1, writeInternalObjectType, List.append_assoc]

theorem readInternalObjectTypes_inv {e : Endian} {bs : List Byte}
    {l : List InternalObjectType} {rest : List Byte}
    (h : readInternalObjectTypes e bs = .ok (l, rest)) :
    bs = writeInternalObjectTypes e l ++ rest := by
  simp only [readInternalObjectTypes, pbind_ok] at h
  obtain ⟨u, r0, h0, h1⟩ := h
  rw [readExact_inv h0,
    parse_pascal_vec_inv (fun _ _ _ hh => readInternalObjectType_inv hh) h1,
    writeInternalObjectTypes, List.append_assoc]

theorem readInfo_inv {e : Endian} {bs : List Byte} {iv : Info} {rest : List Byte}
    (h : readInfo e bs = .ok (iv, rest)) : bs = writeInfo e iv ++ rest := by
  simp only [readInfo, pbind_ok, ppure, PResult.ok.injEq, Prod.mk.injEq] at h
  obtain ⟨u, r0, hm, a, r1, ha, b, r2, hb, c, r3, hc, d, r4, hd, f, r5, hf, hiv, hr⟩ := h
  subst hiv; subst hr
  obtain ⟨hbs0, _⟩ := readU32_inv ha
  obtain ⟨hbs1, _⟩ := readU32_inv hb
  obtain ⟨hbs2, _⟩ := readU32_inv hc
  obtain ⟨hbs3, _⟩ := readU32_inv hd
  obtain ⟨hbs4, _⟩ := readU32_inv hf
  rw [readExact_inv hm, hbs0, hbs1, hbs2, hbs3, hbs4, writeInfo]
  simp only [List.append_assoc]

theorem readDataTypeType_inv {e : Endian} {bs : List Byte} {t : DataTypeType}
    {rest : List Byte} (h : readDataTypeType e bs = .ok (t, rest)) :
    bs = writeDataTypeType e t ++ rest := by
  simp only [readDataTypeType, pbind_ok] at h
  obtain ⟨tag, r0, htag, h1⟩ := h
  obtain ⟨hbs0, _⟩ := readU32_inv htag
  subst hbs0
  split at h1
  · rename_i hc; subst hc
    simp only [pbind_ok, ppure, PResult.ok.injEq, Prod.mk.injEq] at h1
    obtain ⟨b, r1, hb, l, r2, hl, ht, hr⟩ := h1
    subst ht; subst hr
    obtain ⟨h1b, _⟩ := readU32_inv hb
    obtain ⟨h2b, _⟩ := readU32_inv hl
    rw [h1b, h2b]
    simp only [writeDataTypeType, List.append_assoc]
  split at h1
  · rename_i hc; subst hc
    simp only [pbind_ok, ppure, PResult.ok.injEq, Prod.mk.injEq] at h1
    obtain ⟨b, r1, hb, ht, hr⟩ := h1
    subst ht; subst hr
    obtain ⟨h1b, _⟩ := readU32_inv hb
    rw [h1b]
    simp only [writeDataTypeType, List.append_assoc]
  split at h1
  · rename_i hc; subst hc
    simp only [pbind_ok, ppure, PResult.ok.injEq, Prod.mk.injEq] at h1
    obtain ⟨tp, r1, htp, ht, hr⟩ := h1
    subst ht; subst hr
    obtain ⟨h1b, _⟩ := readU32_inv htp
    rw [h1b]
    simp only [writeDataTypeType, List.append_assoc]
  split at h1
  · rename_i hc; subst hc
    simp only [pbind_ok] at h1
    obtain ⟨o, r1, ho, u, r2, hu, rows, r3, hrows, h2⟩ := h1
    split at h2
    · rename_i hrows1
      simp only [pbind_ok, ppure, PResult.ok.injEq, Prod.mk.injEq] at h2
      obtain ⟨cols, r4, hcols, ht, hr⟩ := h2
      subst ht; subst hr
      obtain ⟨h1b, _⟩ := readU32_inv ho
      obtain ⟨h3b, _⟩ := readU32_inv hrows
      obtain ⟨h4b, _⟩ := readU32_inv hcols
      rw [h1b, readExact_inv hu, h3b, h4b]
      simp only [writeDataTypeType, List.append_assoc]
    · exact absurd h2 (by simp [pfail])
  split at h1
  · rename_i hc; subst hc
    simp only [pbind_ok, ppure, PResult.ok.injEq, Prod.mk.injEq] at h1
    obtain ⟨base, r1, hbase, u, r2, hu, ms, r3, hms, ht, hr⟩ := h1
    subst ht; subst hr
    obtain ⟨h1b, _⟩ := readU32_inv hbase
    rw [h1b, readExact_inv hu,
      parse_pascal_vec_inv (fun _ _ _ hh => readStructMember_inv hh) hms]
    simp only [writeDataTypeType, List.append_assoc]
  split at h1
  · rename_i hc; subst hc
    simp only [pbind_ok, ppure, PResult.ok.injEq, Prod.mk.injEq] at h1
    obtain ⟨o, r1, ho, ht, hr⟩ := h1
    subst ht; subst hr
    obtain ⟨h1b, _⟩ := readU32_inv ho
    rw [h1b]
    simp only [writeDataTypeType, List.append_assoc]
  split at h1
  · rename_i hc; subst hc
    simp only [pbind_ok, ppure, PResult.ok.injEq, Prod.mk.injEq] at h1
    obtain ⟨o, r1, ho, ht, hr⟩ := h1
    subst ht; subst hr
    obtain ⟨h1b, _⟩ := readU32_inv ho
    rw [h1b]
    simp only [writeDataTypeType, List.append_assoc]
  split at h1
  · rename_i hc; subst hc
    simp only [pbind_ok, ppure, PResult.ok.injEq, Prod.mk.injEq] at h1
    obtain ⟨f, r1, hf, ht, hr⟩ := h1
    subst ht; subst hr
    obtain ⟨h1b, _⟩ := readU32_inv hf
    rw [h1b]
    simp only [writeDataTypeType, List.append_assoc]
  exact absurd h1 (by simp [pfail])

theorem readDataType_inv {e : Endian} {bs : List Byte} {dt : DataType}
    {rest : List Byte} (h : readDataType e bs = .ok (dt, rest)) :
    bs = writeDataType e dt ++ rest := by
  simp only [readDataType, pbind_ok, ppure, PResult.ok.injEq, Prod.mk.injEq] at h
  obtain ⟨u, r0, hu, i, r1, hi, nm, r2, hnm, fmt, r3, hfmt, ty, r4, hty, hdt, hr⟩ := h
  subst hdt; subst hr
  obtain ⟨h1b, _⟩ := readU32_inv hi
  obtain ⟨h2b, _⟩ := parse_pascal_string_inv hnm
  obtain ⟨h3b, _⟩ := readU32_inv hfmt
  rw [readExact_inv hu, h1b, h2b, h3b, readDataTypeType_inv hty, writeDataType]
  simp only [List.append_assoc]

theorem readInternalTypes_inv {e : Endian} {bs : List Byte} {l : List DataType}
    {rest : List Byte} (h : readInternalTypes e bs = .ok (l, rest)) :
    bs = writeInternalTypes e l ++ rest := by
  simp only [readInternalTypes, pbind_ok] at h
  obtain ⟨u, r0, h0, h1⟩ := h
  rw [readExact_inv h0,
    parse_pascal_vec_inv (fun _ _ _ hh => readDataType_inv hh) h1,
    writeInternalTypes, List.append_assoc]

theorem read_type_writeValue_inv {e : Endian} {internal_types : List DataType} :
    ∀ (fuel tid : Nat) (bs : List Byte) (v : InternalObjectDataValue) (rest : List Byte),
      read_type e internal_types fuel tid bs = .ok (v, rest) →
      bs = writeValue e v ++ rest := by
  intro fuel
  induction fuel with
  | zero =>
    intro tid bs v rest h
    exact absurd h (by simp [read_type])
  | succ fuel ih =>
    intro tid bs v rest h
    simp only [read_type] at h
    split at h
  -- lookupType misses: fatal error, no ok result
    · exact absurd h (by simp)
    rename_i dt hlk
    split at h
  -- Primitive: the named-special-case chain
    · split at h
      · simp only [pbind_ok, ppure, PResult.ok.injEq, Prod.mk.injEq] at h
        obtain ⟨s, r1, hs, hv, hr⟩ := h
        subst hv; subst hr
        obtain ⟨hbs, _⟩ := parse_pascal_string_inv hs
        rw [hbs]; simp only [writeValue]
      split at h
      · simp only [pbind_ok, ppure, PResult.ok.injEq, Prod.mk.injEq] at h
        obtain ⟨w, r1, hw, hv, hr⟩ := h
        subst hv; subst hr
        rw [(readU32_inv hw).1]; simp only [writeValue]
      split at h
      · simp only [pbind_ok, ppure, PResult.ok.injEq, Prod.mk.injEq] at h
        obtain ⟨w, r1, hw, hv, hr⟩ := h
        subst hv; subst hr
        obtain ⟨hbs, _⟩ := readByte_inv hw
        rw [hbs]; simp only [writeValue, List.singleton_append]
      split at h
      · simp only [pbind_ok, ppure, PResult.ok.injEq, Prod.mk.injEq] at h
        obtain ⟨w, r1, hw, hv, hr⟩ := h
        subst hv; subst hr
        rw [(readU32_inv hw).1]; simp only [writeValue]
      split at h
      · simp only [pbind_ok, ppure, PResult.ok.injEq, Prod.mk.injEq] at h
        obtain ⟨w, r1, hw, hv, hr⟩ := h
        subst hv; subst hr
        rw [(readU32_inv hw).1]; simp only [writeValue]
      split at h
      · simp only [pbind_ok, ppure, PResult.ok.injEq, Prod.mk.injEq] at h
        obtain ⟨w, r1, hw, hv, hr⟩ := h
        subst hv; subst hr
        rw [(readU64_inv hw).1]; simp only [writeValue]
      split at h
      · simp only [pbind_ok, ppure, PResult.ok.injEq, Prod.mk.injEq] at h
        obtain ⟨w, r1, hw, hv, hr⟩ := h
        subst hv; subst hr
        rw [(readU64_inv hw).1]; simp only [writeValue]
      split at h
      · simp only [pbind_ok, ppure, PResult.ok.injEq, Prod.mk.injEq] at h
        obtain ⟨w, r1, hw, hv, hr⟩ := h
        subst hv; subst hr
        rw [(readU32_inv hw).1]; simp only [writeValue]
      · simp only [pbind_ok, ppure, PResult.ok.injEq, Prod.mk.injEq] at h
        obtain ⟨l, r1, hl, hv, hr⟩ := h
        subst hv; subst hr
        rw [(readByteList_inv hl).1]; simp only [writeValue]
  -- Enum
    · split at h
      · simp only [pbind_ok, ppure, PResult.ok.injEq, Prod.mk.injEq] at h
        obtain ⟨w, r1, hw, hv, hr⟩ := h
        subst hv; subst hr
        rw [(readU32_inv hw).1]; simp only [writeValue]
      · simp only [pbind_ok, ppure, PResult.ok.injEq, Prod.mk.injEq] at h
        obtain ⟨l, r1, hl, hv, hr⟩ := h
        subst hv; subst hr
        rw [(readByteList_inv hl).1]; simp only [writeValue]
  -- Pointer
    · simp only [pbind_ok, ppure, PResult.ok.injEq, Prod.mk.injEq] at h
      obtain ⟨w, r1, hw, hv, hr⟩ := h
      subst hv; subst hr
      rw [(readU32_inv hw).1]; simp only [writeValue]
  -- Array
    · rename_i Of rows cols heq
      simp only [pbind_ok, ppure, PResult.ok.injEq, Prod.mk.injEq] at h
      obtain ⟨vs, r1, hvs, hv, hr⟩ := h
      subst hv; subst hr
      obtain ⟨hbs, _⟩ :=
        readN_inv (fun bs a rest hh => ih Of bs a rest hh) cols bs vs r1 hvs
      rw [hbs]
      simp only [writeValue, writeValues_eq_writeSeq]
  -- Struct
    · rename_i Base members heq
      split at h
      · simp only [pbind_ok, ppure, PResult.ok.injEq, Prod.mk.injEq] at h
        obtain ⟨w, r1, hw, hv, hr⟩ := h
        subst hv; subst hr
        rw [(readU32_inv hw).1]; simp only [writeValue]
      · simp only [pbind_ok, ppure, PResult.ok.injEq, Prod.mk.injEq] at h
        obtain ⟨b, r1, hb, ms, r2, hms, hv, hr⟩ := h
        subst hv; subst hr
        split at hb
        · simp only [pbind_ok, ppure, PResult.ok.injEq, Prod.mk.injEq] at hb
          obtain ⟨bv, r1b, hbv, hbeq, hr1⟩ := hb
          subst hbeq; subst hr1
          have hms2 : r1b = writeSeq (writeValue e) ms ++ r2 :=
            readSeq_inv (fun a bs b rest hh => ih a.Ty bs b rest hh) members r1b ms r2 hms
          rw [ih Base bs bv r1b hbv, hms2]
          simp only [writeValue, writeValues_eq_writeSeq, List.append_assoc]
        · simp only [ppure, PResult.ok.injEq, Prod.mk.injEq] at hb
          obtain ⟨hbeq, hbs⟩ := hb
          subst hbeq; subst hbs
          have hms2 : bs = writeSeq (writeValue e) ms ++ r2 :=
            readSeq_inv (fun a bs b rest hh => ih a.Ty bs b rest hh) members bs ms r2 hms
          rw [hms2]
          simp only [writeValue, writeValues_eq_writeSeq, List.nil_append]
  -- StaticStackArray
    · rename_i Of heq
      simp only [pbind_ok, ppure, PResult.ok.injEq, Prod.mk.injEq] at h
      obtain ⟨u, r1, hu, n, r2, hn, vs, r3, hvs, hv, hr⟩ := h
      subst hv; subst hr
      obtain ⟨hbs, hlen⟩ :=
        readN_inv (fun bs a rest hh => ih Of bs a rest hh) n r2 vs r3 hvs
      rw [readExact_inv hu, (readU32_inv hn).1, hbs]
      simp only [writeValue, writeValues_eq_writeSeq, hlen, List.append_assoc]
  -- DynamicContainer
    · simp only [pbind_ok, ppure, PResult.ok.injEq, Prod.mk.injEq] at h
      obtain ⟨u, r1, hu, n, r2, hn, ps, r3, hps, hv, hr⟩ := h
      subst hv; subst hr
      obtain ⟨hbs, hlen⟩ :=
        readN_inv (fun bs a rest hh => (readU32_inv hh).1) n r2 ps r3 hps
      rw [readExact_inv hu, (readU32_inv hn).1, hbs]
      simp only [writeValue, hlen, List.append_assoc]
  -- TypeDef
    · rename_i For heq
      exact ih For bs v rest h

theorem readInternalObject_inv {e : Endian} {T : List DataType} {fuel : Nat}
    {bs : List Byte} {ob : InternalObject} {rest : List Byte}
    (h : readInternalObject e T fuel bs = .ok (ob, rest)) :
    bs = writeInternalObject e ob ++ rest := by
  simp only [readInternalObject, pbind_ok, ppure, PResult.ok.injEq, Prod.mk.injEq] at h
  obtain ⟨o, r0, ho, t, r1, ht, v, r2, hv, hob, hr⟩ := h
  subst hob; subst hr
  obtain ⟨h0b, _⟩ := readU32_inv ho
  obtain ⟨h1b, _⟩ := readU32_inv ht
  rw [h0b, h1b, read_type_writeValue_inv fuel t r1 v r2 hv, writeInternalObject]
  simp only [List.append_assoc]

theorem readInternalObjects_inv {e : Endian} {T : List DataType} {fuel : Nat}
    {bs : List Byte} {l : List InternalObject} {rest : List Byte}
    (h : readInternalObjects e T fuel bs = .ok (l, rest)) :
    bs = writeInternalObjects e l ++ rest := by
  simp only [readInternalObjects, pbind_ok] at h
  obtain ⟨u, r0, h0, h1⟩ := h
  rw [readExact_inv h0,
    parse_pascal_vec_inv (fun _ _ _ hh => readInternalObject_inv hh) h1,
    writeInternalObjects, List.append_assoc]

theorem readCTSEMeta_inv {e : Endian} {fuel : Nat} {bs : List Byte} {m : CTSEMeta}
    {rest : List Byte} (h : readCTSEMeta e fuel bs = .ok (m, rest)) :
    ∃ iv, bs = writeCTSEMetaWithInfo e m iv ++ rest := by
  simp only [readCTSEMeta, readCTSEMetaTail, pbind_ok, ppure, PResult.ok.injEq,
    Prod.mk.injEq] at h
  obtain ⟨md, r0, hmd, msgs, r1, hmsgs, iv, r2, hiv, rfil, r3, hrfil, idents, r4, hidents,
    exty, r5, hexty, inty, r6, hinty, exob, r7, hexob, obty, r8, hobty, edty, r9, hedty,
    objs, r10, hobjs, edob, r11, hedob, u, r12, hend, hm, hr⟩ := h
  subst hm; subst hr
  refine ⟨iv, ?_⟩
  rw [readMetadata_inv hmd, readEmptyVec_inv hmsgs, readInfo_inv hiv, readEmptyVec_inv hrfil,
    readIdents_inv hidents, readExternalTypes_inv hexty, readInternalTypes_inv hinty,
    readEmptyVec_inv hexob, readInternalObjectTypes_inv hobty, readEmptyVec_inv hedty,
    readInternalObjects_inv hobjs, readEmptyVec_inv hedob, readExact_inv hend]
  simp only [writeCTSEMetaWithInfo, List.append_assoc]

/-- A minimal well-formed CTSEMETA stream: version 1, every section empty,
`INFO` carrying the values the writer would synthesize
(`EditDataStripped = 1`, all counts 0). -/
def ctseMinimalStream : List Byte :=
  ctseMagic ++ word32 .little 0x1234ABCD ++ word32 .little 1
  ++ msgsMagic ++ word32 .little 0
  ++ infoMagic ++ word32 .little 1 ++ word32 .little 0 ++ word32 .little 0
    ++ word32 .little 0 ++ word32 .little 0
  ++ rfilMagic ++ word32 .little 0
  ++ idntMagic ++ word32 .little 0
  ++ extyMagic ++ word32 .little 0
  ++ intyMagic ++ word32 .little 0
  ++ exobMagic ++ word32 .little 0
  ++ obtyMagic ++ word32 .little 0
  ++ edtyMagic ++ word32 .little 0
  ++ objsMagic ++ word32 .little 0
  ++ edobMagic ++ word32 .little 0
  ++ metaendMagic

/-- The same stream with a different `INFO` payload (`EditDataStripped = 0`):
still parses, but the writer will not reproduce it. -/
def ctseBadInfoStream : List Byte :=
  ctseMagic ++ word32 .little 0x1234ABCD ++ word32 .little 1
  ++ msgsMagic ++ word32 .little 0
  ++ infoMagic ++ word32 .little 0 ++ word32 .little 0 ++ word32 .little 0
    ++ word32 .little 0 ++ word32 .little 0
  ++ rfilMagic ++ word32 .little 0
  ++ idntMagic ++ word32 .little 0
  ++ extyMagic ++ word32 .little 0
  ++ intyMagic ++ word32 .little 0
  ++ exobMagic ++ word32 .little 0
  ++ obtyMagic ++ word32 .little 0
  ++ edtyMagic ++ word32 .little 0
  ++ objsMagic ++ word32 .little 0
  ++ edobMagic ++ word32 .little 0
  ++ metaendMagic

/-- The parse result of both streams above: version 1, all sections empty. -/
def ctseEmptyMeta : CTSEMeta :=
  ⟨⟨1, none⟩, [], [], [], [], [], [], [], [], [], []⟩

/-- C2 (counterexample): a CTSEMETA byte sequence that parses without error
but is NOT reproduced by writing the parsed value back: its `INFO` section
carries `EditDataStripped = 0`, while the writer always synthesizes
`EditDataStripped = 1`.  Read-then-write is therefore not the identity on
valid streams, refuting the unconditional round-trip claim. -/
theorem ctsemeta_roundtrip_info_counterexample :
    readCTSEMeta .little 1 ctseBadInfoStream = .ok (ctseEmptyMeta, []) ∧
    writeCTSEMeta .little ctseEmptyMeta ≠ ctseBadInfoStream :=
  ⟨rfl, by decide⟩

/-- C2 (corrected): read/write inversion up to the discarded `INFO` section.
Any stream `B` that parses completely equals the writer's output for the
parsed value with SOME `INFO` payload; when that payload happens to be the
one the writer synthesizes (`Info.new` of the section lengths) — in
particular for every stream the writer itself produced — the round-trip is
exact: `write (read B) = B`. -/
theorem ctsemeta_read_write_inversion (e : Endian) (fuel : Nat) (B : List Byte)
    (m : CTSEMeta) (h : readCTSEMeta e fuel B = .ok (m, [])) :
    ∃ iv, B = writeCTSEMetaWithInfo e m iv ∧
      (iv = Info.new m.resource_files m.idents m.external_types m.internal_types
          m.external_objects m.internal_objects →
        writeCTSEMeta e m = B) := by
  obtain ⟨iv, hiv⟩ := readCTSEMeta_inv h
  rw [List.append_nil] at hiv
  refine ⟨iv, hiv, fun hinfo => ?_⟩
  rw [writeCTSEMeta, ← hinfo]
  exact hiv.symm

/-- C2 (witness): the corrected statement applied to the minimal stream:
its `INFO` payload is the synthesized one, so the round-trip is exact. -/
theorem ctsemeta_read_write_inversion_witness :
    ∃ iv, ctseMinimalStream = writeCTSEMetaWithInfo .little ctseEmptyMeta iv ∧
      (iv = Info.new ctseEmptyMeta.resource_files ctseEmptyMeta.idents
          ctseEmptyMeta.external_types ctseEmptyMeta.internal_types
          ctseEmptyMeta.external_objects ctseEmptyMeta.internal_objects →
        writeCTSEMeta .little ctseEmptyMeta = ctseMinimalStream) :=
  ctsemeta_read_write_inversion .little 1 ctseMinimalStream ctseEmptyMeta rfl
